import Mathlib

/-!
# fhicl-cpp: intermediate_table, TableAs / OptionalTableAs, Tuple

A shallow embedding of the header-only parts of fhicl-cpp
(`fhiclcpp/intermediate_table.h`, `fhiclcpp/types/TableAs.h`,
`fhiclcpp/types/OptionalTableAs.h`, `fhiclcpp/types/Tuple.h`) together with
theorems about them.

Conventions.
* A member function that may throw returns `Except error α`; a non-const member
  function additionally returns the object state it leaves behind.
* The out-of-line members of `intermediate_table` (`insert`, `find`, `locate_`,
  defined in a translation unit that is not part of the headers) are collected in
  the structure `members`; the inline members are written once, over an arbitrary
  `members`.  `fhicl::tree` gives one concrete `members`, built from the written
  description of the value tree.
-/

namespace fhicl

/-! ## Values -/

/-- The tags of `extended_value` used by `intermediate_table.h`. -/
inductive value_tag
  | NIL | STRING | BOOL | NUMBER | COMPLEX | SEQUENCE | TABLE
  deriving DecidableEq, Repr

/-- The payload of an `extended_value` (a `std::any` in the source), restricted to
the four shapes named by the typedefs `atom_t` (`std::string`), `complex_t`
(`std::pair<std::string, std::string>`), `sequence_t` (`std::vector<extended_value>`)
and `table_t` (`std::map<std::string, extended_value>`). -/
inductive any_t (α : Type)
  | atom (s : String)
  | complex (first second : String)
  | sequence (xs : List α)
  | table (kvs : List (String × α))

/-- An `extended_value`: `extended_value{in_prolog, tag, value}` as in
`extended_value ex_val{false, TABLE, table_t{}}`. -/
inductive extended_value
  | mk (in_prolog : Bool) (tag : value_tag) (value : any_t extended_value)

/-- The `in_prolog` member. -/
def extended_value.in_prolog : extended_value → Bool
  | .mk p _ _ => p

/-- The `tag` member. -/
def extended_value.tag : extended_value → value_tag
  | .mk _ t _ => t

/-- The `value` member. -/
def extended_value.value : extended_value → any_t extended_value
  | .mk _ _ v => v

/-- Exception categories.  `cant_find` and `protection_violation` are the two
categories thrown in the embedded headers; `bad_any_cast` is what a failed
`std::any_cast` throws; `decode_failure` stands for the exceptions of
`detail::decode`; `null_dereference` marks the dereference of a null pointer
(undefined behaviour in the source, kept apart from every exception). -/
inductive error
  | cant_find
  | protection_violation
  | bad_any_cast
  | decode_failure
  | null_dereference
  deriving DecidableEq, Repr

/-- Result of a non-const member function: what it returns or throws, and the
object state afterwards. -/
abbrev outcome (σ α : Type) := Except error α × σ

/-! ## intermediate_table: members defined out of line -/

/-- The members of `intermediate_table` that the header only declares:
`insert(key, in_prolog, tag, value)`, `find(key) const` and
`locate_(key, in_prolog)`.  `σ` is the state of the table (its `ex_val`), `ν` the
type of the items a non-null `extended_value*` points to. -/
structure members (σ ν : Type) where
  insert : String → Bool → value_tag → any_t extended_value → σ → outcome σ Bool
  find : String → σ → Except error extended_value
  locate_ : String → Bool → σ → outcome σ (Option ν × Bool)

/-! ## intermediate_table: inline members -/

section inline_members

variable {σ ν : Type} (M : members σ ν)

/-- `intermediate_table::locate` (lines 365-374): `nullptr` unless `locate_` says
the item may be updated. -/
def locate (key : String) (s : σ) : outcome σ (Option ν) :=
  match M.locate_ key false s with
  | (.ok located, s') => (.ok (if located.2 then located.1 else none), s')
  | (.error e, s') => (.error e, s')

/-- `intermediate_table::update` (lines 376-385): throws `protection_violation`
when `locate_` says the item may not be updated, otherwise returns
`*located.first`. -/
def update (key : String) (s : σ) : outcome σ ν :=
  match M.locate_ key false s with
  | (.ok located, s') =>
    if !located.2 then (.error .protection_violation, s')
    else
      match located.1 with
      | some item => (.ok item, s')
      | none => (.error .null_dereference, s')
  | (.error e, s') => (.error e, s')

end inline_members


/-! ### Typed convenience layer -/

/-- The overloads of `detail::encode` and `detail::decode` (`fhiclcpp/coding.h`)
for one native type `T`: `encode` yields the canonical string form, `decode`
reads a `std::any` and may throw. -/
structure coding (T : Type) where
  encode : T → String
  decode : any_t extended_value → Except error T

/-- A `std::complex<T>` with its `real()` and `imag()` parts. -/
structure std_complex (T : Type) where
  real : T
  imag : T

/-- The conversion `complex_t c(table.find(key))` of an `extended_value` to
`complex_t`: an `any_cast` of the payload. -/
def to_complex_t (v : extended_value) : Except error (String × String) :=
  match v.value with
  | .complex first second => .ok (first, second)
  | _ => .error .bad_any_cast

section typed_layer

variable {σ ν : Type} (M : members σ ν)

/-- `it_value_get<T>` for value types (lines 159-172), reached through
`intermediate_table::get<T>` (lines 272-278). -/
def get {T : Type} (c : coding T) (key : String) (s : σ) : Except error T :=
  match M.find key s with
  | .ok v => c.decode v.value
  | .error e => .error e

/-- `it_value_get<std::complex<U>>` (lines 174-190): both halves are decoded
from the stored pair, the real part first. -/
def get_complex {U : Type} (c : coding U) (key : String) (s : σ) :
    Except error (std_complex U) :=
  match M.find key s with
  | .ok v =>
    match to_complex_t v with
    | .ok p =>
      match c.decode (.atom p.1) with
      | .ok r =>
        match c.decode (.atom p.2) with
        | .ok i => .ok ⟨r, i⟩
        | .error e => .error e
      | .error e => .error e
    | .error e => .error e
  | .error e => .error e

/-- `put(key, std::string const&, in_prolog)` (lines 280-286). -/
def put_string (c : coding String) (key : String) (value : String) (in_prolog : Bool)
    (s : σ) : outcome σ Bool :=
  M.insert key in_prolog .STRING (.atom (c.encode value)) s

/-- `put(key, char const*, in_prolog)` (lines 288-294); `c` is the coding of
`char const*`. -/
def put_cstr (c : coding String) (key : String) (value : String) (in_prolog : Bool)
    (s : σ) : outcome σ Bool :=
  M.insert key in_prolog .STRING (.atom (c.encode value)) s

/-- `put(key, bool, in_prolog)` (lines 296-302). -/
def put_bool (c : coding Bool) (key : String) (value : Bool) (in_prolog : Bool)
    (s : σ) : outcome σ Bool :=
  M.insert key in_prolog .BOOL (.atom (c.encode value)) s

/-- `put(key, std::complex<T> const&, in_prolog)` (lines 304-315). -/
def put_complex {T : Type} (c : coding T) (key : String) (value : std_complex T)
    (in_prolog : Bool) (s : σ) : outcome σ Bool :=
  M.insert key in_prolog .COMPLEX (.complex (c.encode value.real) (c.encode value.imag)) s

/-- `put(key, T, in_prolog)` for numeric `T` (lines 335-342). -/
def put_number {T : Type} (c : coding T) (key : String) (value : T) (in_prolog : Bool)
    (s : σ) : outcome σ Bool :=
  M.insert key in_prolog .NUMBER (.atom (c.encode value)) s

/-- `putEmptySequence` (lines 344-349). -/
def putEmptySequence (key : String) (in_prolog : Bool) (s : σ) : outcome σ Bool :=
  M.insert key in_prolog .SEQUENCE (.sequence []) s

/-- `putEmptyTable` (lines 351-356). -/
def putEmptyTable (key : String) (in_prolog : Bool) (s : σ) : outcome σ Bool :=
  M.insert key in_prolog .TABLE (.table []) s

/-- `putNil` (lines 358-363); `c` is the coding of `std::nullptr_t`. -/
def putNil (c : coding Unit) (key : String) (in_prolog : Bool) (s : σ) : outcome σ Bool :=
  M.insert key in_prolog .NIL (.atom (c.encode ())) s

end typed_layer

/-- The key `key + "[" + std::to_string(count) + "]"` of line 330. -/
def element_key (key : String) (count : Nat) : String :=
  key ++ "[" ++ toString count ++ "]"

/-- The loop of `put(key, std::vector<T> const&, in_prolog)` (lines 327-331) over
the remaining items.  `put_item` is the overload of `put` selected for `T`.  In
`result = result && put(..., count++, ...)` neither the call nor the increment is
evaluated once `result` is false. -/
def put_vector_loop {σ T : Type} (put_item : String → T → Bool → σ → outcome σ Bool)
    (key : String) (in_prolog : Bool) : List T → Nat → Bool → σ → outcome σ Bool
  | [], _, result, s => (.ok result, s)
  | item :: rest, count, result, s =>
    if result then
      match put_item (element_key key count) item in_prolog s with
      | (.ok r, s') => put_vector_loop put_item key in_prolog rest (count + 1) r s'
      | (.error e, s') => (.error e, s')
    else put_vector_loop put_item key in_prolog rest count false s

/-- `put(key, std::vector<T> const&, in_prolog)` (lines 317-333). -/
def put_vector {σ ν T : Type} (M : members σ ν)
    (put_item : String → T → Bool → σ → outcome σ Bool)
    (key : String) (value : List T) (in_prolog : Bool) (s : σ) : outcome σ Bool :=
  match putEmptySequence M key in_prolog s with
  | (.ok result, s') =>
    if !result then (.ok result, s')
    else put_vector_loop put_item key in_prolog value 0 result s'
  | (.error e, s') => (.error e, s')

/-! ## The value tree -/

namespace tree

/-- Modelled from the spec: a path segment (section 6, path syntax) is either a
table-member name or a zero-based decimal sequence index.  The splitting of keys
is `intermediate_table::split`, declared in the header and defined out of line. -/
inductive segment
  | name (s : String)
  | index (n : Nat)
  deriving DecidableEq, Repr

/-- Modelled from the spec: the characters that separate the segments of a path
such as `a.b[2].c` (path syntax; `intermediate_table::split` is missing). -/
def is_delimiter (c : Char) : Bool := c = '.' || c = '[' || c = ']'

/-- Modelled from the spec: cut a path at its delimiters; `cur` is the piece read
so far, in reverse (part of the missing `intermediate_table::split`). -/
def pieces : List Char → List Char → List (List Char)
  | [], cur => [cur.reverse]
  | c :: cs, cur =>
    if is_delimiter c then cur.reverse :: pieces cs [] else pieces cs (c :: cur)

/-- Modelled from the spec: the value of a decimal sequence index (part of the
missing `intermediate_table::split` and of the index lookup). -/
def decimal (digits : List Char) : Nat :=
  digits.foldl (fun acc c => 10 * acc + (c.toNat - 48)) 0

/-- Modelled from the spec: a piece of decimal digits is an index segment, any
other non-empty piece a table-member name (key-splitting algorithm; the code is
missing). -/
def to_segment (piece : List Char) : Option segment :=
  if piece = [] then none
  else if piece.all Char.isDigit then some (.index (decimal piece))
  else some (.name (String.mk piece))

/-- Modelled from the spec: `intermediate_table::split`, which is declared in the
header only; a path string is segmented into table-member names and bracketed
decimal indices. -/
def split (key : String) : List segment :=
  (pieces key.toList []).filterMap to_segment

/-- Modelled from the spec: lookup of a key in a Table payload (`table_t` is a
`std::map`, whose code is not part of the headers). -/
def lookup {α : Type} (k : String) : List (String × α) → Option α
  | [] => none
  | (k', v) :: rest => if k' = k then some v else lookup k rest

/-- Modelled from the spec: lexicographic order of keys, by which a Table is
keyed (the order of `std::map<std::string, _>`, missing from the headers). -/
def lex_lt : List Char → List Char → Bool
  | _, [] => false
  | [], _ :: _ => true
  | a :: as, b :: bs => a.toNat < b.toNat || (a.toNat = b.toNat && lex_lt as bs)

/-- Modelled from the spec: create-or-overwrite of one key of a Table payload,
keeping the keys in lexicographic order (`std::map` assignment, missing from the
headers). -/
def put_key {α : Type} (k : String) (v : α) : List (String × α) → List (String × α)
  | [] => [(k, v)]
  | (k', v') :: rest =>
    if k' = k then (k, v) :: rest
    else if lex_lt k.toList k'.toList then (k, v) :: (k', v') :: rest
    else (k', v') :: put_key k v rest

/-- Modelled from the spec: one step of path resolution (the body of the missing
`find` / `locate_`): a table-member segment is a Table lookup, an index segment a
Sequence position lookup. -/
def child (cur : extended_value) : segment → Option extended_value
  | .name k =>
    match cur.value with
    | .table kvs => lookup k kvs
    | _ => none
  | .index i =>
    match cur.value with
    | .sequence xs => xs[i]?
    | _ => none

/-- Modelled from the spec: following the segments of a path from a Value (the
missing `find` / `locate_`); `none` as soon as a segment is missing. -/
def resolve : List segment → extended_value → Option extended_value
  | [], cur => some cur
  | seg :: rest, cur =>
    match child cur seg with
    | some c => resolve rest c
    | none => none

/-- Modelled from the spec: the Table created implicitly for a missing
intermediate segment during an insertion (auto-vivification in the missing
`insert`); it carries the protection flag of the inserted Value. -/
def fresh (in_prolog : Bool) : extended_value := .mk in_prolog .TABLE (.table [])

/-- Modelled from the spec: the missing `insert` below a Value.  It
creates-or-overwrites the Value at the path; `none` (no insertion) if an
intermediate segment is not a Table / Sequence, if a sequence index lies beyond
the current length (growth is append-at-next-index only), or if a protected Value
at that exact path blocks the overwrite from a non-protected context. -/
def insert_at (nv : extended_value) : List segment → extended_value → Option extended_value
  | [], cur => if cur.in_prolog && !nv.in_prolog then none else some nv
  | .name k :: rest, cur =>
    match cur.value with
    | .table kvs =>
      (insert_at nv rest ((lookup k kvs).getD (fresh nv.in_prolog))).map
        (fun c => .mk cur.in_prolog cur.tag (.table (put_key k c kvs)))
    | _ => none
  | .index i :: rest, cur =>
    match cur.value with
    | .sequence xs =>
      if i < xs.length then
        (insert_at nv rest (xs.getD i (fresh nv.in_prolog))).map
          (fun c => .mk cur.in_prolog cur.tag (.sequence (xs.set i c)))
      else if i = xs.length then
        (insert_at nv rest (fresh nv.in_prolog)).map
          (fun c => .mk cur.in_prolog cur.tag (.sequence (xs ++ [c])))
      else none
    | _ => none

/-- The initial state `extended_value ex_val{false, TABLE, table_t{}}` of an
`intermediate_table` (line 149). -/
def empty : extended_value := .mk false .TABLE (.table [])

/-- Modelled from the spec: `intermediate_table::insert(key, in_prolog, tag,
value)`, which is declared in the header only.  Returns `true` when the Value was
created or overwritten and `false`, leaving the tree as it was, otherwise; the
root itself (a path without segments) is never overwritten, it stays a Table. -/
def insert (key : String) (in_prolog : Bool) (tag : value_tag)
    (value : any_t extended_value) (t : extended_value) : outcome extended_value Bool :=
  match split key with
  | [] => (.ok false, t)
  | seg :: rest =>
    match insert_at (.mk in_prolog tag value) (seg :: rest) t with
    | some t' => (.ok true, t')
    | none => (.ok false, t)

/-- Modelled from the spec: `intermediate_table::find(key) const`, which is
declared in the header only: resolves the path and fails with `cant_find` (the
spec's NotFound) if any segment is missing. -/
def find (key : String) (t : extended_value) : Except error extended_value :=
  match resolve (split key) t with
  | some v => .ok v
  | none => .error .cant_find

/-- Modelled from the spec: `intermediate_table::locate_(key, in_prolog)`, which
is declared in the header only ("Return an item with a bool indicating whether it
may be updated").  It resolves like `find`; the item may not be updated when the
path is missing, or when the terminal Value is protected and the access comes
from a non-protected context. -/
def locate_ (key : String) (in_prolog : Bool) (t : extended_value) :
    outcome extended_value (Option extended_value × Bool) :=
  match resolve (split key) t with
  | some v => (.ok (some v, !(v.in_prolog && !in_prolog)), t)
  | none => (.ok (none, false), t)

/-- The tree `{ k : "v1" }` whose entry `k` was declared in the prolog. -/
def locked : extended_value :=
  .mk false .TABLE (.table [("k", .mk true .STRING (.atom "v1"))])

/-- The value tree as an `intermediate_table`: the three out-of-line members. -/
def impl : members extended_value extended_value :=
  { insert := insert, find := find, locate_ := locate_ }

end tree

/-! ## Observing the calls of `put` -/

/-- One call made on behalf of `put(key, std::vector<T> const&, in_prolog)`,
together with what the call returned or threw: a call of `insert`, or a call of
the overload of `put` selected for an element. -/
inductive call (T : Type)
  | insert (key : String) (in_prolog : Bool) (tag : value_tag)
      (value : any_t extended_value) (result : Except error Bool)
  | put (key : String) (item : T) (in_prolog : Bool) (result : Except error Bool)

/-- What a recorded call returned or threw. -/
def call.result {T : Type} : call T → Except error Bool
  | .insert _ _ _ _ r => r
  | .put _ _ _ r => r

/-- The table `M`, with every call of `insert` appended to a log kept beside the
state; the table itself behaves as before. -/
def observed (T : Type) {σ ν : Type} (M : members σ ν) : members (σ × List (call T)) ν :=
  { insert := fun key in_prolog tag value s =>
      let r := M.insert key in_prolog tag value s.1
      (r.1, (r.2, s.2 ++ [call.insert key in_prolog tag value r.1]))
    find := fun key s => M.find key s.1
    locate_ := fun key in_prolog s =>
      let r := M.locate_ key in_prolog s.1
      (r.1, (r.2, s.2)) }

/-- The element overload `put_item`, with every call appended to the log. -/
def observed_put {σ T : Type} (put_item : String → T → Bool → σ → outcome σ Bool) :
    String → T → Bool → σ × List (call T) → outcome (σ × List (call T)) Bool :=
  fun key item in_prolog s =>
    let r := put_item key item in_prolog s.1
    (r.1, (r.2, s.2 ++ [call.put key item in_prolog r.1]))

/-- A coding of strings for examples: a string is its own canonical form. -/
def plain : coding String :=
  { encode := fun v => v
    decode := fun a =>
      match a with
      | .atom v => .ok v
      | _ => .error .bad_any_cast }

/-- A coding of booleans for examples: `"true"` and `"false"`. -/
def plain_bool : coding Bool :=
  { encode := fun v => if v then "true" else "false"
    decode := fun a =>
      match a with
      | .atom v => if v = "true" then .ok true else if v = "false" then .ok false
        else .error .decode_failure
      | _ => .error .bad_any_cast }

/-- A coding of the numbers 0 and 1 for examples: `"0"` and `"1"`. -/
def plain_bit : coding (Fin 2) :=
  { encode := fun v => if v = 0 then "0" else "1"
    decode := fun a =>
      match a with
      | .atom v => if v = "0" then .ok 0 else if v = "1" then .ok 1
        else .error .decode_failure
      | _ => .error .bad_any_cast }

/-! ## Descriptors: presence kinds and the inner table -/

/-- Modelled from the spec: the presence kinds of a descriptor (the enumeration
`par_style`, whose declaration is not part of the headers): Required,
RequiredConditional, Default, DefaultConditional, Optional, OptionalConditional. -/
inductive par_style
  | REQUIRED | REQUIRED_CONDITIONAL | DEFAULT | DEFAULT_CONDITIONAL
  | OPTIONAL | OPTIONAL_CONDITIONAL
  deriving DecidableEq, Repr

/-- Modelled from the spec: `OptionalTable<Config>` (`fhiclcpp/types/OptionalTable.h`
is missing), the inner Table descriptor of an adapter: its name, documentation
text, conditional-use predicate and presence kind, and the resolved sub-table when
the table is present. -/
structure OptionalTable (Config : Type) where
  name : String
  comment : String
  maybeUse : Option (Unit → Bool)
  parStyle_ : par_style
  value_ : Option Config

namespace OptionalTable

variable {Config : Type}

/-- Modelled from the spec: the missing constructor `OptionalTable(Name&&,
Comment&&)`: an Optional descriptor, no table resolved yet. -/
def ctor (name comment : String) : OptionalTable Config :=
  { name := name, comment := comment, maybeUse := none, parStyle_ := .OPTIONAL, value_ := none }

/-- Modelled from the spec: the missing constructor `OptionalTable(Name&&,
Comment&&, std::function<bool()>)`: an OptionalConditional descriptor. -/
def ctor_maybeUse (name comment : String) (maybeUse : Unit → Bool) : OptionalTable Config :=
  { name := name, comment := comment, maybeUse := some maybeUse,
    parStyle_ := .OPTIONAL_CONDITIONAL, value_ := none }

/-- Modelled from the spec: the missing `ParameterBase::set_par_style`, which
registers a presence kind. -/
def set_par_style (self : OptionalTable Config) (vt : par_style) : OptionalTable Config :=
  { self with parStyle_ := vt }

/-- Modelled from the spec: the missing `ParameterBase::has_default`: a descriptor
has a declared default exactly when its presence kind is Default or
DefaultConditional. -/
def has_default (self : OptionalTable Config) : Bool :=
  self.parStyle_ = .DEFAULT || self.parStyle_ = .DEFAULT_CONDITIONAL

/-- Modelled from the spec: resolution of the inner Table descriptor against a
value tree (the missing `do_set_value`): the table is present, with its resolved
sub-table, or absent. -/
def set_value (self : OptionalTable Config) (v : Option Config) : OptionalTable Config :=
  { self with value_ := v }

/-- Modelled from the spec: the missing `OptionalTable::operator()(via_type&)`:
whether the table is present; if it is, `via` receives the resolved sub-table. -/
def call_into (self : OptionalTable Config) (via : Config) : Bool × Config :=
  match self.value_ with
  | some c => (true, c)
  | none => (false, via)

/-- Modelled from the spec: the missing `OptionalTable::operator()()`: the
resolved sub-table if the table is present, "no value" otherwise. -/
def call (self : OptionalTable Config) : Option Config := self.value_

/-- Modelled from the spec: the missing `OptionalTable::hasValue`. -/
def hasValue (self : OptionalTable Config) : Bool := self.value_.isSome

end OptionalTable

/-! ## TableAs -/

/-- What `TableAs<T, Config>` and `OptionalTableAs<T, Config>` take from outside
the headers: the user's `convert(Config const&)`, the demangled name of `T`
(`cet::demangle_symbol(typeid(T).name())`) and `detail::maybe_insert(t)`. -/
structure conversion (T Config : Type) where
  convert : Config → T
  type_name : String
  maybe_insert : T → String

/-- `TableAs<T, Config>`: the members `tableObj_` and `t_` (a `std::shared_ptr<T>`,
null unless a default was given). -/
structure TableAs (T Config : Type) where
  tableObj_ : OptionalTable Config
  t_ : Option T

namespace TableAs

variable {T Config : Type}

/-- `TableAs::conversion_comment(Comment&&)` (lines 155-169). -/
def conversion_comment (k : conversion T Config) (comment : String) : String :=
  "N.B. The following table is converted to type:" ++ "\n"
    ++ ("        '" ++ k.type_name ++ "'")
    ++ (if comment.isEmpty then "" else "\n\n" ++ comment)

/-- `TableAs::conversion_comment(Comment&&, T const&)` (lines 171-187). -/
def conversion_comment_t (k : conversion T Config) (comment : String) (t : T) : String :=
  "N.B. The following table is converted to type:" ++ "\n"
    ++ ("        '" ++ k.type_name ++ "'") ++ "\n"
    ++ k.maybe_insert t
    ++ (if comment.isEmpty then "" else "\n\n" ++ comment)

/-- `TableAs(Name&&, Comment&&)` (lines 108-113). -/
def ctor_name_comment (k : conversion T Config) (name comment : String) : TableAs T Config :=
  { tableObj_ := (OptionalTable.ctor name (conversion_comment k comment)).set_par_style .REQUIRED
    t_ := none }

/-- `TableAs(Name&&)` (lines 103-106), delegating with `Comment("")`. -/
def ctor_name (k : conversion T Config) (name : String) : TableAs T Config :=
  ctor_name_comment k name ""

/-- `TableAs(Name&&, Comment&&, std::function<bool()>)` (lines 115-124). -/
def ctor_name_comment_maybeUse (k : conversion T Config) (name comment : String)
    (maybeUse : Unit → Bool) : TableAs T Config :=
  { tableObj_ := (OptionalTable.ctor_maybeUse name (conversion_comment k comment)
      maybeUse).set_par_style .REQUIRED_CONDITIONAL
    t_ := none }

/-- `TableAs(Name&&, Comment&&, T const&)` (lines 132-138). -/
def ctor_name_comment_t (k : conversion T Config) (name comment : String) (t : T) :
    TableAs T Config :=
  { tableObj_ := (OptionalTable.ctor name (conversion_comment_t k comment t)).set_par_style
      .DEFAULT
    t_ := some t }

/-- `TableAs(Name&&, T const&)` (lines 127-130), delegating with `Comment("")`. -/
def ctor_name_t (k : conversion T Config) (name : String) (t : T) : TableAs T Config :=
  ctor_name_comment_t k name "" t

/-- `TableAs(Name&&, Comment&&, std::function<bool()>, T const&)` (lines 140-151). -/
def ctor_name_comment_maybeUse_t (k : conversion T Config) (name comment : String)
    (maybeUse : Unit → Bool) (t : T) : TableAs T Config :=
  { tableObj_ := (OptionalTable.ctor_maybeUse name (conversion_comment_t k comment t)
      maybeUse).set_par_style .DEFAULT_CONDITIONAL
    t_ := some t }

/-- The arguments of the six constructors of `TableAs` (lines 54-66). -/
inductive args (T : Type)
  | name (name : String)
  | name_comment (name comment : String)
  | name_comment_maybeUse (name comment : String) (maybeUse : Unit → Bool)
  | name_t (name : String) (t : T)
  | name_comment_t (name comment : String) (t : T)
  | name_comment_maybeUse_t (name comment : String) (maybeUse : Unit → Bool) (t : T)

/-- The default value among the constructor arguments, if one was supplied. -/
def args.t : args T → Option T
  | .name _ => none
  | .name_comment _ _ => none
  | .name_comment_maybeUse _ _ _ => none
  | .name_t _ t => some t
  | .name_comment_t _ _ t => some t
  | .name_comment_maybeUse_t _ _ _ t => some t

/-- Construction of a `TableAs` by the constructor that the arguments select. -/
def construct (k : conversion T Config) : args T → TableAs T Config
  | .name n => ctor_name k n
  | .name_comment n c => ctor_name_comment k n c
  | .name_comment_maybeUse n c u => ctor_name_comment_maybeUse k n c u
  | .name_t n t => ctor_name_t k n t
  | .name_comment_t n c t => ctor_name_comment_t k n c t
  | .name_comment_maybeUse_t n c u t => ctor_name_comment_maybeUse_t k n c u t

/-- Resolution of the inner table of a `TableAs` against a value tree (see
`OptionalTable.set_value`). -/
def set_value (self : TableAs T Config) (v : Option Config) : TableAs T Config :=
  { self with tableObj_ := self.tableObj_.set_value v }

/-- `TableAs::operator()() const` (lines 68-77): `via_type via;` is
default-constructed, then
`tableObj_(via) ? convert(via) : tableObj_.has_default() ? *t_ : throw cant_find`. -/
def call [Inhabited Config] (k : conversion T Config) (self : TableAs T Config) :
    Except error T :=
  let r := self.tableObj_.call_into default
  if r.1 then .ok (k.convert r.2)
  else if self.tableObj_.has_default then
    match self.t_ with
    | some t => .ok t
    | none => .error .null_dereference
  else .error .cant_find

end TableAs

/-! ## OptionalTableAs -/

/-- `OptionalTableAs<T, Config>`: the member `tableObj_`. -/
structure OptionalTableAs (T Config : Type) where
  tableObj_ : OptionalTable Config

namespace OptionalTableAs

variable {T Config : Type}

/-- `OptionalTableAs::conversion_comment` (lines 61-75). -/
def conversion_comment (k : conversion T Config) (comment : String) : String :=
  "N.B. The following table is converted to type:" ++ "\n"
    ++ ("        '" ++ k.type_name ++ "'")
    ++ (if comment.isEmpty then "" else "\n\n" ++ comment)

/-- `OptionalTableAs(Name&&, Comment&&)` (lines 86-89). -/
def ctor_name_comment (k : conversion T Config) (name comment : String) :
    OptionalTableAs T Config :=
  { tableObj_ := OptionalTable.ctor name (conversion_comment k comment) }

/-- `OptionalTableAs(Name&&)` (lines 81-84), delegating with `Comment("")`. -/
def ctor_name (k : conversion T Config) (name : String) : OptionalTableAs T Config :=
  ctor_name_comment k name ""

/-- `OptionalTableAs(Name&&, Comment&&, std::function<bool()>)` (lines 91-98). -/
def ctor_name_comment_maybeUse (k : conversion T Config) (name comment : String)
    (maybeUse : Unit → Bool) : OptionalTableAs T Config :=
  { tableObj_ := OptionalTable.ctor_maybeUse name (conversion_comment k comment) maybeUse }

/-- The arguments of the three constructors of `OptionalTableAs` (lines 22-26). -/
inductive args
  | name (name : String)
  | name_comment (name comment : String)
  | name_comment_maybeUse (name comment : String) (maybeUse : Unit → Bool)

/-- Construction of an `OptionalTableAs` by the constructor that the arguments
select. -/
def construct (k : conversion T Config) : args → OptionalTableAs T Config
  | .name n => ctor_name k n
  | .name_comment n c => ctor_name_comment k n c
  | .name_comment_maybeUse n c u => ctor_name_comment_maybeUse k n c u

/-- Resolution of the inner table of an `OptionalTableAs` against a value tree
(see `OptionalTable.set_value`). -/
def set_value (self : OptionalTableAs T Config) (v : Option Config) :
    OptionalTableAs T Config :=
  { self with tableObj_ := self.tableObj_.set_value v }

/-- `OptionalTableAs::operator()() const` (lines 28-35). -/
def call (k : conversion T Config) (self : OptionalTableAs T Config) : Option T :=
  match self.tableObj_.call with
  | some via => some (k.convert via)
  | none => none

/-- `OptionalTableAs::operator()(T& result) const` (lines 37-46, "Obsolete"):
returns `t.has_value()` together with `result` after the call. -/
def call_into (k : conversion T Config) (self : OptionalTableAs T Config) (result : T) :
    Bool × T :=
  match call k self with
  | some t => (true, t)
  | none => (false, result)

/-- `OptionalTableAs::hasValue` (lines 48-52). -/
def hasValue (self : OptionalTableAs T Config) : Bool := self.tableObj_.hasValue

end OptionalTableAs

/-- An example configuration: the resolved sub-table `{ myParam : <n> }`. -/
structure MyTypeConfig where
  myParam : Nat
  deriving DecidableEq, Repr

instance : Inhabited MyTypeConfig := ⟨⟨0⟩⟩

/-- An example conversion to `Nat`: `convert(config)` is `config.myParam + 1`. -/
def MyType_conversion : conversion Nat MyTypeConfig :=
  { convert := fun c => c.myParam + 1
    type_name := "MyType"
    maybe_insert := fun t => "with a default value of: " ++ toString t }

/-! ## Tuple -/

/-- Modelled from the spec: `fhicl::Name` (`Name.h` is missing), the local name
of a descriptor. -/
structure Name where
  value : String
  deriving DecidableEq, Repr

/-- Modelled from the spec: `Name::sequence_element(i)` (`Name.h` is missing), the
local name of the element at zero-based position `i` of a sequence, so that the
child's qualified name is `parent.path + "[" + position + "]"`. -/
def Name.sequence_element (i : Nat) : Name := ⟨"[" ++ toString i ++ "]"⟩

/-- Modelled from the spec: the kinds of descriptor (Atom, Sequence, Table, Tuple);
the enumeration `par_type` is missing, and only `par_type::TUPLE` is used in the
headers. -/
inductive par_type
  | ATOM | SEQUENCE | TABLE | TUPLE
  deriving DecidableEq, Repr

/-- Modelled from the spec: `detail::AlwaysUse()` (`ConfigPredicate.h` is missing),
the conditional-use predicate of a descriptor that is not conditional. -/
def AlwaysUse : Unit → Bool := fun _ => true

/-- Modelled from the spec: the Name Context (`NameStackRegistry.h` is missing) as
a constructor uses it: a descriptor construction enters it with its local name
when it starts, and `NameStackRegistry::end_of_ctor()` exits it.  `σ` is the
process-wide state that holds the names currently open. -/
structure registry (σ : Type) where
  enter : Name → σ → σ
  end_of_ctor : σ → σ

/-- Modelled from the spec: `NameStackRegistry` (missing) as a strict stack of the
names currently open, innermost first: entering pushes the local name,
`end_of_ctor` pops. -/
def NameStackRegistry : registry (List String) :=
  { enter := fun name names_ => name.value :: names_
    end_of_ctor := fun names_ => names_.tail }

/-- Modelled from the spec: what `detail::SequenceBase` (`SequenceBase.h` is
missing) keeps of its constructor arguments: name, documentation text, presence
kind (`value_type` in `Tuple.h`), descriptor kind and conditional-use predicate. -/
structure SequenceBase where
  name : Name
  comment : String
  vt : par_style
  pt : par_type
  maybeUse : Unit → Bool

/-- Modelled from the spec: the constructor `SequenceBase{name, comment, vt, pt,
maybeUse}` (missing): it records its arguments and, as every descriptor
construction, enters the Name Context with its local name. -/
def SequenceBase.ctor {σ : Type} (R : registry σ) (name : Name) (comment : String)
    (vt : par_style) (pt : par_type) (maybeUse : Unit → Bool) (s : σ) : SequenceBase × σ :=
  ({ name := name, comment := comment, vt := vt, pt := pt, maybeUse := maybeUse },
    R.enter name s)

/-- What `Tuple<TYPES...>` uses of one of its element types `T`: the descriptor
type `tt::fhicl_type<T>`, the result type `tt::return_type<T>` with the value a
default-constructed result holds, the descriptor's `operator()()`, and the type
`tt::fhicl_type<T>::dtype` of its default value.  The descriptor types themselves
(`Atom.h` and the type traits) are not part of the headers embedded here. -/
structure element where
  ftype : Type
  rtype : Type
  init : rtype
  call : ftype → Except error rtype
  dtype : Type

/-- `Tuple<TYPES...>` with `N = sizeof...(TYPES)`: the base `detail::SequenceBase`
and the member `value_`, a `std::tuple` of
`std::shared_ptr<tt::fhicl_type<TYPES>>` (null until the constructor has filled
it). -/
structure Tuple {N : Nat} (TYPES : Fin N → element) where
  base : SequenceBase
  value_ : (i : Fin N) → Option (TYPES i).ftype

namespace Tuple

variable {N : Nat} {TYPES : Fin N → element}

/-- The result container `rtype`, a `std::tuple<tt::return_type<TYPES>...>`: one
value per position `0, ..., N-1`. -/
abbrev rtype (TYPES : Fin N → element) : Type := (i : Fin N) → (TYPES i).rtype

/-- `Tuple::get<I>()` (lines 74-75): `(*std::get<I>(value_))()`. -/
def get (self : Tuple TYPES) (I : Fin N) : Except error (TYPES I).rtype :=
  match self.value_ I with
  | some elem => (TYPES I).call elem
  | none => .error .null_dereference

/-- `Tuple::get_size()` (line 86): `std::tuple_size<ftype>()`. -/
def get_size (_self : Tuple TYPES) : Nat := N

/-- `Tuple::fill_return_element<I>` (lines 188-199): for `I < N` store the
resolution of child `I` in component `I` of `result` and go on with `I + 1`; for
`I >= N` do nothing. -/
def fill_return_element (self : Tuple TYPES) (I : Nat) (result : rtype TYPES) :
    Except error (rtype TYPES) :=
  if h : I < N then
    match self.value_ ⟨I, h⟩ with
    | some elem =>
      match (TYPES ⟨I, h⟩).call elem with
      | .ok v => fill_return_element self (I + 1) (Function.update result ⟨I, h⟩ v)
      | .error e => .error e
    | none => .error .null_dereference
  else .ok result
termination_by N - I

/-- `Tuple::assemble_rtype` (lines 201-204). -/
def assemble_rtype (self : Tuple TYPES) (result : rtype TYPES) : Except error (rtype TYPES) :=
  fill_return_element self 0 result

/-- `Tuple::operator()() const` (lines 259-266): `rtype result;
assemble_rtype(result); return result;`. -/
def call (self : Tuple TYPES) : Except error (rtype TYPES) :=
  assemble_rtype self (fun i => (TYPES i).init)

end Tuple

/-- An example element type: an `Atom<int>`-like descriptor that holds its value. -/
def int_element : element :=
  { ftype := Int, rtype := Int, init := 0, call := fun v => .ok v, dtype := Int }

/-- An example element type: an `Atom<bool>`-like descriptor that holds its value. -/
def bool_element : element :=
  { ftype := Bool, rtype := Bool, init := false, call := fun v => .ok v, dtype := Bool }

/-- The element types of the example `Tuple<int, bool>`. -/
def int_bool : Fin 2 → element
  | ⟨0, _⟩ => int_element
  | ⟨_ + 1, _⟩ => bool_element

/-- An example `Tuple<int, bool>` whose children hold `7` and `true`. -/
def int_bool_tuple : Tuple int_bool :=
  { base := { name := ⟨"t"⟩, comment := "", vt := .REQUIRED, pt := .TUPLE, maybeUse := AlwaysUse }
    value_ := fun i =>
      match i with
      | ⟨0, _⟩ => some (7 : Int)
      | ⟨_ + 1, _⟩ => some true }

/-- The result of resolving the example `Tuple<int, bool>`: `(7, true)`. -/
def int_bool_result : Tuple.rtype int_bool
  | ⟨0, _⟩ => (7 : Int)
  | ⟨_ + 1, _⟩ => true

/-! ## Tuple: construction -/

/-- The constructors of the descriptor type `tt::fhicl_type<T>` of an element type
that `Tuple.h` calls through `std::make_shared`: `fhicl_type<T>(Name&&)` and
`fhicl_type<T>(Name&&, dtype const&)`.  They are not part of the headers embedded
here; each may throw and acts on the process-wide state `σ` that holds the Name
Context. -/
structure element_ctors (σ : Type) (e : element) where
  ctor : Name → σ → outcome σ e.ftype
  ctor_default : Name → e.dtype → σ → outcome σ e.ftype

namespace tuple_detail

/-- `tuple_detail::ValueHolder<DEFAULTS...>` (lines 27-43): the member `holder_`,
a `std::tuple<DEFAULTS...>` with one default per position. -/
structure ValueHolder {N : Nat} (TYPES : Fin N → element) where
  holder_ : (i : Fin N) → (TYPES i).dtype

variable {N : Nat} {TYPES : Fin N → element}

/-- `std::forward_as_tuple(defaults...)`: the tuple whose component `i` is the
`i`-th argument of the pack. -/
def forward_as_tuple (defaults : (i : Fin N) → (TYPES i).dtype) :
    (i : Fin N) → (TYPES i).dtype :=
  fun i => defaults i

/-- `ValueHolder(DEFAULTS ... defaults)` (lines 30-32): the defaults given as a
positional list `{d0, ..., dN-1}`. -/
def ValueHolder.of_defaults (defaults : (i : Fin N) → (TYPES i).dtype) : ValueHolder TYPES :=
  { holder_ := forward_as_tuple defaults }

/-- `ValueHolder(std::tuple<DEFAULTS...> const& tup)` (lines 34-36): the defaults
given as a pre-built tuple. -/
def ValueHolder.of_tuple (tup : (i : Fin N) → (TYPES i).dtype) : ValueHolder TYPES :=
  { holder_ := tup }

/-- `ValueHolder::get<I>()` (lines 38-39): `std::get<I>(holder_)`. -/
def ValueHolder.get (self : ValueHolder TYPES) (I : Fin N) : (TYPES I).dtype :=
  self.holder_ I

end tuple_detail

namespace Tuple

variable {σ : Type} {N : Nat} {TYPES : Fin N → element}

/-- The type `ftype` of the member `value_` (line 61). -/
abbrev ftype (TYPES : Fin N → element) : Type := (i : Fin N) → Option (TYPES i).ftype

/-- `Tuple::finalize_tuple_elements(i, elem, others...)` (lines 141-152).  `k` is
the position in `value_` of `elem`, the first element of the pack still to be
finalized; the overload for an empty pack does nothing.  The child is made with
`Name::sequence_element(i)`, then the rest of the pack is finalized with `++i`. -/
def finalize_tuple_elements (C : (j : Fin N) → element_ctors σ (TYPES j)) (i k : Nat)
    (value_ : ftype TYPES) (s : σ) : outcome σ (ftype TYPES) :=
  if h : k < N then
    match (C ⟨k, h⟩).ctor (Name.sequence_element i) s with
    | (.ok elem, s') =>
      finalize_tuple_elements C (i + 1) (k + 1) (Function.update value_ ⟨k, h⟩ (some elem)) s'
    | (.error e, s') => (.error e, s')
  else (.ok value_, s)
termination_by N - k

/-- `Tuple::finalize_elements` (lines 154-158):
`finalize_tuple_elements(0, std::get<I>(value_)...)`. -/
def finalize_elements (C : (j : Fin N) → element_ctors σ (TYPES j)) (value_ : ftype TYPES)
    (s : σ) : outcome σ (ftype TYPES) :=
  finalize_tuple_elements C 0 0 value_ s

/-- `Tuple::fill_tuple_element<I>` (lines 163-179): for `I < N` the child at
position `I` is made with `Name::sequence_element(I)` and `defaults.get<I>()`,
then `fill_tuple_element<I+1>` goes on; for `I >= N` nothing is done. -/
def fill_tuple_element (C : (j : Fin N) → element_ctors σ (TYPES j))
    (defaults : tuple_detail.ValueHolder TYPES) (I : Nat) (value_ : ftype TYPES) (s : σ) :
    outcome σ (ftype TYPES) :=
  if h : I < N then
    match (C ⟨I, h⟩).ctor_default (Name.sequence_element I) (defaults.get ⟨I, h⟩) s with
    | (.ok elem, s') =>
      fill_tuple_element C defaults (I + 1) (Function.update value_ ⟨I, h⟩ (some elem)) s'
    | (.error e, s') => (.error e, s')
  else (.ok value_, s)
termination_by N - I

/-- `Tuple::fill_tuple_elements` (lines 181-184): `fill_tuple_element<0>`. -/
def fill_tuple_elements (C : (j : Fin N) → element_ctors σ (TYPES j))
    (defaults : tuple_detail.ValueHolder TYPES) (value_ : ftype TYPES) (s : σ) :
    outcome σ (ftype TYPES) :=
  fill_tuple_element C defaults 0 value_ s

/-- The common shape of the constructors without defaults (lines 215-231): the
base `SequenceBase{name, comment, vt, par_type::TUPLE, maybeUse}` is constructed,
then the body runs `finalize_elements` and `NameStackRegistry::end_of_ctor()`.  An
exception of a child constructor leaves the body before `end_of_ctor()`.
(`RegisterIfTableMember{this}` acts on a registry of table members that is not
part of the headers and is left out.) -/
def ctor_finalize (R : registry σ) (C : (j : Fin N) → element_ctors σ (TYPES j))
    (name : Name) (comment : String) (vt : par_style) (maybeUse : Unit → Bool) (s : σ) :
    outcome σ (Tuple TYPES) :=
  let b := SequenceBase.ctor R name comment vt .TUPLE maybeUse s
  match finalize_elements C (fun _ => none) b.2 with
  | (.ok value_, s') => (.ok { base := b.1, value_ := value_ }, R.end_of_ctor s')
  | (.error e, s') => (.error e, s')

/-- The common shape of the constructors with defaults (lines 240-257): the base
`SequenceBase{name, comment, vt, par_type::TUPLE, maybeUse}` is constructed, then
the body runs `fill_tuple_elements(defaults)` and
`NameStackRegistry::end_of_ctor()`. -/
def ctor_fill (R : registry σ) (C : (j : Fin N) → element_ctors σ (TYPES j))
    (name : Name) (comment : String) (vt : par_style) (maybeUse : Unit → Bool)
    (defaults : tuple_detail.ValueHolder TYPES) (s : σ) : outcome σ (Tuple TYPES) :=
  let b := SequenceBase.ctor R name comment vt .TUPLE maybeUse s
  match fill_tuple_elements C defaults (fun _ => none) b.2 with
  | (.ok value_, s') => (.ok { base := b.1, value_ := value_ }, R.end_of_ctor s')
  | (.error e, s') => (.error e, s')

/-- `Tuple(Name&&, Comment&&)` (lines 215-222): `value_type::REQUIRED`,
`detail::AlwaysUse()`. -/
def ctor_name_comment (R : registry σ) (C : (j : Fin N) → element_ctors σ (TYPES j))
    (name : Name) (comment : String) (s : σ) : outcome σ (Tuple TYPES) :=
  ctor_finalize R C name comment .REQUIRED AlwaysUse s

/-- `Tuple(Name&&)` (lines 210-213), delegating with `Comment("")`. -/
def ctor_name (R : registry σ) (C : (j : Fin N) → element_ctors σ (TYPES j))
    (name : Name) (s : σ) : outcome σ (Tuple TYPES) :=
  ctor_name_comment R C name "" s

/-- `Tuple(Name&&, Comment&&, std::function<bool()>)` (lines 224-231):
`value_type::REQUIRED_CONDITIONAL`. -/
def ctor_name_comment_maybeUse (R : registry σ) (C : (j : Fin N) → element_ctors σ (TYPES j))
    (name : Name) (comment : String) (maybeUse : Unit → Bool) (s : σ) :
    outcome σ (Tuple TYPES) :=
  ctor_finalize R C name comment .REQUIRED_CONDITIONAL maybeUse s

/-- `Tuple(Name&&, Comment&&, dtype const&)` (lines 240-247):
`value_type::REQUIRED`, `detail::AlwaysUse()`. -/
def ctor_name_comment_defaults (R : registry σ) (C : (j : Fin N) → element_ctors σ (TYPES j))
    (name : Name) (comment : String) (defaults : tuple_detail.ValueHolder TYPES) (s : σ) :
    outcome σ (Tuple TYPES) :=
  ctor_fill R C name comment .REQUIRED AlwaysUse defaults s

/-- `Tuple(Name&&, dtype const&)` (lines 235-238), delegating with `Comment("")`. -/
def ctor_name_defaults (R : registry σ) (C : (j : Fin N) → element_ctors σ (TYPES j))
    (name : Name) (defaults : tuple_detail.ValueHolder TYPES) (s : σ) :
    outcome σ (Tuple TYPES) :=
  ctor_name_comment_defaults R C name "" defaults s

/-- `Tuple(Name&&, Comment&&, std::function<bool()>, dtype const&)` (lines
250-257): `value_type::REQUIRED_CONDITIONAL`. -/
def ctor_name_comment_maybeUse_defaults (R : registry σ)
    (C : (j : Fin N) → element_ctors σ (TYPES j)) (name : Name) (comment : String)
    (maybeUse : Unit → Bool) (defaults : tuple_detail.ValueHolder TYPES) (s : σ) :
    outcome σ (Tuple TYPES) :=
  ctor_fill R C name comment .REQUIRED_CONDITIONAL maybeUse defaults s

/-- The arguments of the six constructors of `Tuple` (lines 63-70). -/
inductive args (TYPES : Fin N → element)
  | name (name : Name)
  | name_comment (name : Name) (comment : String)
  | name_comment_maybeUse (name : Name) (comment : String) (maybeUse : Unit → Bool)
  | name_defaults (name : Name) (defaults : tuple_detail.ValueHolder TYPES)
  | name_comment_defaults (name : Name) (comment : String)
      (defaults : tuple_detail.ValueHolder TYPES)
  | name_comment_maybeUse_defaults (name : Name) (comment : String) (maybeUse : Unit → Bool)
      (defaults : tuple_detail.ValueHolder TYPES)

/-- The defaults among the constructor arguments, if they were supplied. -/
def args.defaults : args TYPES → Option (tuple_detail.ValueHolder TYPES)
  | .name _ => none
  | .name_comment _ _ => none
  | .name_comment_maybeUse _ _ _ => none
  | .name_defaults _ d => some d
  | .name_comment_defaults _ _ d => some d
  | .name_comment_maybeUse_defaults _ _ _ d => some d

/-- The predicate among the constructor arguments, if one was supplied. -/
def args.maybeUse : args TYPES → Option (Unit → Bool)
  | .name _ => none
  | .name_comment _ _ => none
  | .name_comment_maybeUse _ _ u => some u
  | .name_defaults _ _ => none
  | .name_comment_defaults _ _ _ => none
  | .name_comment_maybeUse_defaults _ _ u _ => some u

/-- The name among the constructor arguments. -/
def args.name_ : args TYPES → Name
  | .name n => n
  | .name_comment n _ => n
  | .name_comment_maybeUse n _ _ => n
  | .name_defaults n _ => n
  | .name_comment_defaults n _ _ => n
  | .name_comment_maybeUse_defaults n _ _ _ => n

/-- Construction of a `Tuple` by the constructor that the arguments select. -/
def construct (R : registry σ) (C : (j : Fin N) → element_ctors σ (TYPES j)) :
    args TYPES → σ → outcome σ (Tuple TYPES)
  | .name n => ctor_name R C n
  | .name_comment n c => ctor_name_comment R C n c
  | .name_comment_maybeUse n c u => ctor_name_comment_maybeUse R C n c u
  | .name_defaults n d => ctor_name_defaults R C n d
  | .name_comment_defaults n c d => ctor_name_comment_defaults R C n c d
  | .name_comment_maybeUse_defaults n c u d => ctor_name_comment_maybeUse_defaults R C n c u d

end Tuple

/-! ## Observing the construction of the children of a Tuple -/

/-- One construction of a child descriptor of a `Tuple<TYPES...>`: the position
whose descriptor type was constructed, the name and the default (if any) passed
to its constructor, and what the constructor returned or threw. -/
structure construction {N : Nat} (TYPES : Fin N → element) where
  position : Fin N
  name : Name
  dflt : Option (TYPES position).dtype
  result : Except error (TYPES position).ftype

/-- The Name Context `R` beside a log of child constructions; the log is left
alone. -/
def observed_registry {σ : Type} {N : Nat} (TYPES : Fin N → element) (R : registry σ) :
    registry (σ × List (construction TYPES)) :=
  { enter := fun name s => (R.enter name s.1, s.2)
    end_of_ctor := fun s => (R.end_of_ctor s.1, s.2) }

/-- The child constructors `C`, with every call appended to the log. -/
def observed_ctors {σ : Type} {N : Nat} {TYPES : Fin N → element}
    (C : (j : Fin N) → element_ctors σ (TYPES j)) :
    (j : Fin N) → element_ctors (σ × List (construction TYPES)) (TYPES j) :=
  fun j =>
    { ctor := fun name s =>
        let r := (C j).ctor name s.1
        (r.1, (r.2, s.2 ++ [{ position := j, name := name, dflt := none, result := r.1 }]))
      ctor_default := fun name d s =>
        let r := (C j).ctor_default name d s.1
        (r.1, (r.2, s.2 ++ [{ position := j, name := name, dflt := some d, result := r.1 }])) }

/-- Example child constructors for `Tuple<int, bool>`: each child enters the Name
Context with its name and exits it again; without a default it holds `0` or
`false`, with a default it holds the default. -/
def int_bool_ctors : (j : Fin 2) → element_ctors (List String) (int_bool j)
  | ⟨0, _⟩ =>
    { ctor := fun name names_ =>
        (.ok (0 : Int), NameStackRegistry.end_of_ctor (NameStackRegistry.enter name names_))
      ctor_default := fun name d names_ =>
        (.ok d, NameStackRegistry.end_of_ctor (NameStackRegistry.enter name names_)) }
  | ⟨_ + 1, _⟩ =>
    { ctor := fun name names_ =>
        (.ok false, NameStackRegistry.end_of_ctor (NameStackRegistry.enter name names_))
      ctor_default := fun name d names_ =>
        (.ok d, NameStackRegistry.end_of_ctor (NameStackRegistry.enter name names_)) }

/-- The example defaults `(7, true)` of `Tuple<int, bool>`. -/
def int_bool_values : (i : Fin 2) → (int_bool i).dtype
  | ⟨0, _⟩ => (7 : Int)
  | ⟨_ + 1, _⟩ => true

/-- What `Tuple.h` consults of one element type `T` of `TYPES...` when a
`Tuple<TYPES...>` is declared. `fhiclcpp/type_traits.h` and most element types'
headers are missing, so the values are parameters: the type traits
`tt::is_table_fragment` and `tt::is_optional_parameter` at the descriptor type
`tt::fhicl_type<T>` (the `element_type` of the pointer) and at the pointer type
`std::shared_ptr<tt::fhicl_type<T>>` of `std::get<I>(value_)`, and `tt::is_table`
and `tt::is_sequence_type` at `T` itself; whether `tt::fhicl_type<T>` has the member
type `dtype` that line 59 names; whether it can be constructed from a `Name`, as
line 150 does; and whether it can be constructed from a `Name` and a
`dtype const&`, as line 177 does. -/
structure element_traits where
  is_table_fragment_ftype : Bool
  is_optional_parameter_ftype : Bool
  is_table_fragment_ptr : Bool
  is_optional_parameter_ptr : Bool
  is_table_utype : Bool
  is_sequence_type_utype : Bool
  has_dtype : Bool
  has_ctor_name : Bool
  has_ctor_name_dtype : Bool
  deriving DecidableEq, Repr

namespace Tuple

/-- The `static_assert`s met when `fill_tuple_element<I>` (lines 168-179) is
instantiated for the element types from position `I` on: `NO_DEFAULTS_FOR_TABLE`
and `NO_STD_CONTAINERS` for `elem_utype`, then `fill_tuple_element<I+1>`. -/
def fill_tuple_element_asserts : List element_traits → Bool
  | [] => true
  | E :: others =>
    !E.is_table_utype && !E.is_sequence_type_utype && fill_tuple_element_asserts others

end Tuple

namespace tree

theorem lookup_put_key {α : Type} (k : String) (v : α) (kvs : List (String × α)) :
    lookup k (put_key k v kvs) = some v := by
  induction kvs with
  | nil => simp [put_key, lookup]
  | cons hd rest ih =>
    obtain ⟨k', v'⟩ := hd
    by_cases h : k' = k
    · simp [put_key, lookup, h]
    · by_cases hlt : lex_lt k.data k'.data = true
      · simp [put_key, lookup, h, hlt]
      · simp [put_key, lookup, h, hlt, ih]

/-- After a successful insertion below `cur`, the path resolves to the inserted
Value. -/
theorem resolve_insert_at (nv : extended_value) (segs : List segment) :
    ∀ cur cur', insert_at nv segs cur = some cur' → resolve segs cur' = some nv := by
  induction segs with
  | nil =>
    intro cur cur' h
    simp only [insert_at] at h
    split at h
    · cases h
    · simp only [Option.some.injEq] at h
      subst h
      rfl
  | cons seg rest ih =>
    intro cur cur' h
    cases seg with
    | name k =>
      simp only [insert_at] at h
      split at h
      · rename_i kvs hv
        simp only [Option.map_eq_some'] at h
        obtain ⟨c, hc, rfl⟩ := h
        simp [resolve, child, extended_value.value, lookup_put_key, ih _ _ hc]
      · cases h
    | index i =>
      simp only [insert_at] at h
      split at h
      · rename_i xs hv
        split at h
        · rename_i hlt
          simp only [Option.map_eq_some'] at h
          obtain ⟨c, hc, rfl⟩ := h
          simp [resolve, child, extended_value.value, hlt, ih _ _ hc]
        · split at h
          · rename_i hge heq
            simp only [Option.map_eq_some'] at h
            obtain ⟨c, hc, rfl⟩ := h
            simp [resolve, child, extended_value.value, heq, ih _ _ hc]
          · cases h
      · cases h

end tree

/-! ## locate and update -/

/-- The `locate_` of the value tree never returns a null item together with
"may be updated". -/
theorem tree.locate__item (key : String) (t : extended_value) (first : Option extended_value)
    (h : (tree.impl.locate_ key false t).1 = .ok (first, true)) : first ≠ none := by
  simp only [tree.impl, tree.locate_] at h
  split at h
  · simp only [Except.ok.injEq, Prod.mk.injEq] at h
    rw [← h.1]
    simp
  · simp at h

/-- The `locate_` of the value tree does not throw. -/
theorem tree.locate__no_throw (key : String) (t : extended_value) (e : error) :
    (tree.impl.locate_ key false t).1 ≠ .error e := by
  simp only [tree.impl, tree.locate_]
  split <;> simp

/-- C1. For every state of the table and every key, `update(key)` throws
`protection_violation` exactly when `locate(key)` returns `nullptr`; when
`locate(key)` returns an item, `update(key)` returns that same item; when
`locate(key)` throws, `update(key)` throws the same exception; and both leave the
table in the same state.  `locate_` is any function that honours its declaration
("return an item with a bool indicating whether it may be updated"): it returns a
non-null item whenever the bool is true, and does not itself throw
`protection_violation`. -/
theorem update_throws_iff_locate_null {σ ν : Type} (M : members σ ν)
    (hitem : ∀ key s first, (M.locate_ key false s).1 = .ok (first, true) → first ≠ none)
    (hthrow : ∀ key s, (M.locate_ key false s).1 ≠ .error .protection_violation)
    (key : String) (s : σ) :
    ((update M key s).1 = .error .protection_violation ↔ (locate M key s).1 = .ok none)
    ∧ (∀ item, (locate M key s).1 = .ok (some item) → (update M key s).1 = .ok item)
    ∧ (∀ e, (locate M key s).1 = .error e → (update M key s).1 = .error e)
    ∧ (update M key s).2 = (locate M key s).2 := by
  have hi := hitem key s
  have ht := hthrow key s
  unfold update locate
  rcases hl : M.locate_ key false s with ⟨r, s'⟩
  rw [hl] at hi ht
  cases r with
  | error e =>
    refine ⟨⟨fun h => ?_, fun h => ?_⟩, ?_, ?_, rfl⟩
    · simp only [Except.error.injEq] at h ht
      exact absurd (by rw [h]) ht
    · simp at h
    · intro item h
      simp at h
    · intro e' h
      simpa using h
  | ok located =>
    obtain ⟨first, second⟩ := located
    cases second with
    | false => simp
    | true =>
      cases first with
      | none => exact absurd rfl (hi none rfl)
      | some item => simp

/-- C1, at the value tree `{ k : "v1" }` with `k` protected: `locate("k")` returns
`nullptr` and `update("k")` throws `protection_violation`. -/
theorem update_throws_iff_locate_null_witness :
    (locate tree.impl "k" tree.locked).1 = .ok none
    ∧ (update tree.impl "k" tree.locked).1 = .error .protection_violation :=
  have h := update_throws_iff_locate_null tree.impl
    (fun key s first => tree.locate__item key s first)
    (fun key s => tree.locate__no_throw key s .protection_violation) "k" tree.locked
  ⟨rfl, h.1.mpr rfl⟩

/-! ## Protection -/

/-- Once `result` is false the loop makes no further call. -/
theorem put_vector_loop_false {σ T : Type} (put_item : String → T → Bool → σ → outcome σ Bool)
    (key : String) (in_prolog : Bool) (rest : List T) :
    ∀ (count : Nat) (s : σ),
      put_vector_loop put_item key in_prolog rest count false s = (.ok false, s) := by
  induction rest with
  | nil => intro count s; rfl
  | cons x rest ih =>
    intro count s
    simp only [put_vector_loop, Bool.false_eq_true, if_false]
    exact ih count s

/-- The calls made by the loop of `put` for a vector, started with `result` true:
the elements are put in order, each call but the last returned `true`, and the
loop stops short only after a call that did not return `true`. -/
theorem put_vector_loop_log {σ T : Type} (put_item : String → T → Bool → σ → outcome σ Bool)
    (key : String) (in_prolog : Bool) (rest : List T) :
    ∀ (count : Nat) (s : σ) (log : List (call T)), ∃ elems : List (call T),
      (put_vector_loop (observed_put put_item) key in_prolog rest count true (s, log)).2.2
          = log ++ elems
      ∧ elems.length ≤ rest.length
      ∧ (∀ i x, i < elems.length → rest[i]? = some x →
          ∃ r, elems[i]? = some (call.put (element_key key (count + i)) x in_prolog r))
      ∧ (∀ j c, j + 1 < elems.length → elems[j]? = some c → c.result = .ok true)
      ∧ (elems.length < rest.length → ∃ c, elems.getLast? = some c ∧ c.result ≠ .ok true)
      ∧ ((put_vector_loop (observed_put put_item) key in_prolog rest count true (s, log)).1
          = .ok true → elems.length = rest.length) := by
  induction rest with
  | nil =>
    intro count s log
    exact ⟨[], by simp [put_vector_loop]⟩
  | cons x rest ih =>
    intro count s log
    rcases hr : put_item (element_key key count) x in_prolog s with ⟨r, s'⟩
    have hstop : ∀ r', r' ≠ Except.ok true → ∃ elems : List (call T),
        log ++ [call.put (element_key key count) x in_prolog r'] = log ++ elems
        ∧ elems.length ≤ (x :: rest).length
        ∧ (∀ i y, i < elems.length → (x :: rest)[i]? = some y →
            ∃ r, elems[i]? = some (call.put (element_key key (count + i)) y in_prolog r))
        ∧ (∀ j c, j + 1 < elems.length → elems[j]? = some c → c.result = .ok true)
        ∧ (elems.length < (x :: rest).length →
            ∃ c, elems.getLast? = some c ∧ c.result ≠ .ok true) := by
      intro r' hr'
      refine ⟨[call.put (element_key key count) x in_prolog r'], rfl, by simp, ?_, ?_, ?_⟩
      · intro i y hi hy
        have hi0 : i = 0 := by simpa using hi
        subst hi0
        simp only [List.getElem?_cons_zero, Option.some.injEq] at hy
        subst hy
        exact ⟨r', rfl⟩
      · intro j c hj
        simp at hj
      · intro _
        exact ⟨_, rfl, hr'⟩
    cases r with
    | error e =>
      obtain ⟨elems, h1, h2, h3, h4, h5⟩ := hstop (.error e) (by simp)
      refine ⟨elems, ?_, h2, h3, h4, h5, ?_⟩
      · simp only [put_vector_loop, observed_put, hr, if_true]
        exact h1
      · simp [put_vector_loop, observed_put, hr]
    | ok b =>
      cases b with
      | false =>
        obtain ⟨elems, h1, h2, h3, h4, h5⟩ := hstop (.ok false) (by simp)
        refine ⟨elems, ?_, h2, h3, h4, h5, ?_⟩
        · simp only [put_vector_loop, observed_put, hr, if_true, put_vector_loop_false]
          exact h1
        · simp [put_vector_loop, observed_put, hr, put_vector_loop_false]
      | true =>
        obtain ⟨elems, h1, h2, h3, h4, h5, h6⟩ :=
          ih (count + 1) s' (log ++ [call.put (element_key key count) x in_prolog (.ok true)])
        have hrun : put_vector_loop (observed_put put_item) key in_prolog (x :: rest) count true
            (s, log) = put_vector_loop (observed_put put_item) key in_prolog rest (count + 1)
              true (s', log ++ [call.put (element_key key count) x in_prolog (.ok true)]) := by
          simp [put_vector_loop, observed_put, hr]
        refine ⟨call.put (element_key key count) x in_prolog (.ok true) :: elems,
          ?_, ?_, ?_, ?_, ?_, ?_⟩
        · rw [hrun, h1]
          simp
        · simpa using h2
        · intro i y hi hy
          cases i with
          | zero =>
            simp only [List.getElem?_cons_zero, Option.some.injEq] at hy
            subst hy
            exact ⟨.ok true, by simp⟩
          | succ i =>
            simp only [List.getElem?_cons_succ] at hy
            simp only [List.length_cons, Nat.add_lt_add_iff_right] at hi
            obtain ⟨r, hr'⟩ := h3 i y hi hy
            refine ⟨r, ?_⟩
            simp only [List.getElem?_cons_succ, hr']
            congr 3
            omega
        · intro j c hj hc
          cases j with
          | zero =>
            simp only [List.getElem?_cons_zero, Option.some.injEq] at hc
            subst hc
            rfl
          | succ j =>
            simp only [List.getElem?_cons_succ] at hc
            simp only [List.length_cons, Nat.add_lt_add_iff_right] at hj
            exact h4 j c hj hc
        · intro hlt
          simp only [List.length_cons, Nat.add_lt_add_iff_right] at hlt
          obtain ⟨c, hc, hres⟩ := h5 hlt
          refine ⟨c, ?_, hres⟩
          cases elems with
          | nil => simp at hc
          | cons e es => simpa [List.getLast?_cons_cons] using hc
        · intro hres
          rw [hrun] at hres
          simp [h6 hres]

/-- Observing the calls does not change what the loop returns nor the state of the
table it leaves. -/
theorem put_vector_loop_observed {σ T : Type}
    (put_item : String → T → Bool → σ → outcome σ Bool) (key : String) (in_prolog : Bool)
    (rest : List T) :
    ∀ (count : Nat) (result : Bool) (s : σ) (log : List (call T)),
      (put_vector_loop (observed_put put_item) key in_prolog rest count result (s, log)).1
          = (put_vector_loop put_item key in_prolog rest count result s).1
      ∧ (put_vector_loop (observed_put put_item) key in_prolog rest count result (s, log)).2.1
          = (put_vector_loop put_item key in_prolog rest count result s).2 := by
  induction rest with
  | nil => intro count result s log; simp [put_vector_loop]
  | cons x rest ih =>
    intro count result s log
    cases result with
    | false => simp [put_vector_loop_false]
    | true =>
      rcases hr : put_item (element_key key count) x in_prolog s with ⟨r, s'⟩
      cases r with
      | error e => simp [put_vector_loop, observed_put, hr]
      | ok b =>
        simp only [put_vector_loop, observed_put, hr, if_true]
        exact ih (count + 1) b s' _

/-- Observing the calls does not change what `put` of a vector returns nor the
state of the table it leaves. -/
theorem put_vector_observed {σ ν T : Type} (M : members σ ν)
    (put_item : String → T → Bool → σ → outcome σ Bool) (key : String) (value : List T)
    (in_prolog : Bool) (s : σ) (log : List (call T)) :
    (put_vector (observed T M) (observed_put put_item) key value in_prolog (s, log)).1
        = (put_vector M put_item key value in_prolog s).1
    ∧ (put_vector (observed T M) (observed_put put_item) key value in_prolog (s, log)).2.1
        = (put_vector M put_item key value in_prolog s).2 := by
  rcases hr : M.insert key in_prolog .SEQUENCE (.sequence []) s with ⟨r, s'⟩
  cases r with
  | error e => simp [put_vector, putEmptySequence, observed, hr]
  | ok b =>
    cases b with
    | false => simp [put_vector, putEmptySequence, observed, hr]
    | true =>
      simp only [put_vector, putEmptySequence, observed, hr, Bool.not_true, Bool.false_eq_true,
        if_false]
      exact put_vector_loop_observed put_item key in_prolog value 0 true s' _

/-- In the value tree, `find` after a successful `insert` at the same key returns
the inserted value. -/
theorem tree.find_insert (key : String) (in_prolog : Bool) (t : extended_value)
    (tag : value_tag) (value : any_t extended_value)
    (h : (tree.impl.insert key in_prolog tag value t).1 = .ok true) :
    tree.impl.find key (tree.impl.insert key in_prolog tag value t).2
      = .ok (.mk in_prolog tag value) := by
  simp only [tree.impl, tree.insert] at h ⊢
  split at h
  · simp at h
  · rename_i seg rest hs
    split at h
    · rename_i t' hins
      simp only [hs, hins, tree.find]
      rw [tree.resolve_insert_at _ _ _ _ hins]
    · simp at h

/-- C4. Typed `get` inverts typed `put`: for a string, a `char const*`, a bool, a
number and a complex value `v`, if `put(key, v, in_prolog)` returns `true` then
`get<T>(key)` on the resulting table returns `v`, provided `decode` inverts
`encode` and `find(key)` returns the value just inserted at `key`.  A complex
value is stored as the pair of the encodings of its real and imaginary parts, and
`get` decodes each half of a stored pair on its own. -/
theorem get_put_inverse {σ ν N U : Type} (M : members σ ν)
    (cs cc : coding String) (cb : coding Bool) (cn : coding N) (cu : coding U)
    (hs : ∀ v, cs.decode (.atom (cs.encode v)) = .ok v)
    (hc : ∀ v, cs.decode (.atom (cc.encode v)) = .ok v)
    (hb : ∀ v, cb.decode (.atom (cb.encode v)) = .ok v)
    (hn : ∀ v, cn.decode (.atom (cn.encode v)) = .ok v)
    (hu : ∀ v, cu.decode (.atom (cu.encode v)) = .ok v)
    (key : String) (in_prolog : Bool) (s : σ)
    (hfind : ∀ tag value, (M.insert key in_prolog tag value s).1 = .ok true →
      M.find key (M.insert key in_prolog tag value s).2 = .ok (.mk in_prolog tag value)) :
    (∀ v, (put_string M cs key v in_prolog s).1 = .ok true →
        get M cs key (put_string M cs key v in_prolog s).2 = .ok v)
    ∧ (∀ v, (put_cstr M cc key v in_prolog s).1 = .ok true →
        get M cs key (put_cstr M cc key v in_prolog s).2 = .ok v)
    ∧ (∀ v, (put_bool M cb key v in_prolog s).1 = .ok true →
        get M cb key (put_bool M cb key v in_prolog s).2 = .ok v)
    ∧ (∀ v, (put_number M cn key v in_prolog s).1 = .ok true →
        get M cn key (put_number M cn key v in_prolog s).2 = .ok v)
    ∧ (∀ v, (put_complex M cu key v in_prolog s).1 = .ok true →
        get_complex M cu key (put_complex M cu key v in_prolog s).2 = .ok v)
    ∧ (∀ v, put_complex M cu key v in_prolog s
        = M.insert key in_prolog .COMPLEX (.complex (cu.encode v.real) (cu.encode v.imag)) s)
    ∧ (∀ s' p tag first second r i,
        M.find key s' = .ok (.mk p tag (.complex first second)) →
        cu.decode (.atom first) = .ok r → cu.decode (.atom second) = .ok i →
        get_complex M cu key s' = .ok ⟨r, i⟩) := by
  refine ⟨?_, ?_, ?_, ?_, ?_, fun _ => rfl, ?_⟩
  · intro v h
    simp only [put_string] at h ⊢
    simp [get, hfind _ _ h, extended_value.value, hs]
  · intro v h
    simp only [put_cstr] at h ⊢
    simp [get, hfind _ _ h, extended_value.value, hc]
  · intro v h
    simp only [put_bool] at h ⊢
    simp [get, hfind _ _ h, extended_value.value, hb]
  · intro v h
    simp only [put_number] at h ⊢
    simp [get, hfind _ _ h, extended_value.value, hn]
  · intro v h
    simp only [put_complex] at h ⊢
    simp [get_complex, hfind _ _ h, to_complex_t, extended_value.value, hu]
  · intro s' p tag first second r i hf hr hi
    simp [get_complex, hf, to_complex_t, extended_value.value, hr, hi]

/-- C4, on the empty value tree with the example codings: after
`put("x", "abc")`, `get<std::string>("x")` is `"abc"`; after `put("x", 1)`,
`get("x")` is `1`; after `put("x", std::complex(1, 0))`, `get("x")` is that
complex value. -/
theorem get_put_inverse_witness :
    get tree.impl plain "x" (put_string tree.impl plain "x" "abc" false tree.empty).2
      = .ok "abc"
    ∧ get tree.impl plain_bit "x" (put_number tree.impl plain_bit "x" 1 false tree.empty).2
      = .ok 1
    ∧ get_complex tree.impl plain_bit "x"
        (put_complex tree.impl plain_bit "x" ⟨1, 0⟩ false tree.empty).2 = .ok ⟨1, 0⟩ :=
  have h := get_put_inverse tree.impl plain plain plain_bool plain_bit plain_bit
    (fun _ => rfl) (fun _ => rfl) (fun v => by cases v <;> rfl)
    (fun v => by fin_cases v <;> rfl) (fun v => by fin_cases v <;> rfl)
    "x" false tree.empty (fun tag value => tree.find_insert "x" false tree.empty tag value)
  ⟨h.1 "abc" rfl, h.2.2.2.1 1 rfl, h.2.2.2.2.1 ⟨1, 0⟩ rfl⟩

/-- C5. A scalar `put` hands `insert` the canonical string of the value, never a
native value: `put` of a `std::string` or a `char const*` calls
`insert(key, in_prolog, STRING, encode(value))`, `put` of a `bool` calls
`insert(key, in_prolog, BOOL, encode(value))`, `put` of a numeric value calls
`insert(key, in_prolog, NUMBER, encode(value))` and `putNil` calls
`insert(key, in_prolog, NIL, encode(nullptr))`; this is the only call made, and the
payload is in each case an atom (a `std::string`). -/
theorem scalar_put_inserts_encoding {σ ν N : Type} (M : members σ ν)
    (cs cc : coding String) (cb : coding Bool) (cn : coding N) (cnil : coding Unit)
    (key : String) (in_prolog : Bool) (s : σ) :
    (∀ v, put_string M cs key v in_prolog s
        = M.insert key in_prolog .STRING (.atom (cs.encode v)) s)
    ∧ (∀ v, put_cstr M cc key v in_prolog s
        = M.insert key in_prolog .STRING (.atom (cc.encode v)) s)
    ∧ (∀ v, put_bool M cb key v in_prolog s
        = M.insert key in_prolog .BOOL (.atom (cb.encode v)) s)
    ∧ (∀ v, put_number M cn key v in_prolog s
        = M.insert key in_prolog .NUMBER (.atom (cn.encode v)) s)
    ∧ putNil M cnil key in_prolog s
        = M.insert key in_prolog .NIL (.atom (cnil.encode ())) s
    ∧ (∀ v, ∃ r, (put_string (observed Unit M) cs key v in_prolog (s, [])).2.2
        = [call.insert key in_prolog .STRING (.atom (cs.encode v)) r])
    ∧ (∀ v, ∃ r, (put_cstr (observed Unit M) cc key v in_prolog (s, [])).2.2
        = [call.insert key in_prolog .STRING (.atom (cc.encode v)) r])
    ∧ (∀ v, ∃ r, (put_bool (observed Unit M) cb key v in_prolog (s, [])).2.2
        = [call.insert key in_prolog .BOOL (.atom (cb.encode v)) r])
    ∧ (∀ v, ∃ r, (put_number (observed Unit M) cn key v in_prolog (s, [])).2.2
        = [call.insert key in_prolog .NUMBER (.atom (cn.encode v)) r])
    ∧ (∃ r, (putNil (observed Unit M) cnil key in_prolog (s, [])).2.2
        = [call.insert key in_prolog .NIL (.atom (cnil.encode ())) r]) :=
  ⟨fun _ => rfl, fun _ => rfl, fun _ => rfl, fun _ => rfl, rfl,
    fun _ => ⟨_, rfl⟩, fun _ => ⟨_, rfl⟩, fun _ => ⟨_, rfl⟩, fun _ => ⟨_, rfl⟩, ⟨_, rfl⟩⟩

/-! ## TableAs and OptionalTableAs -/

/-- The presence kind registered by a constructor of `TableAs` says whether a
default was supplied, and `t_` holds exactly that default. -/
theorem TableAs.construct_has_default {T Config : Type} (k : conversion T Config)
    (a : TableAs.args T) :
    (TableAs.construct k a).tableObj_.has_default = a.t.isSome
    ∧ (TableAs.construct k a).t_ = a.t
    ∧ (TableAs.construct k a).tableObj_.value_ = none := by
  cases a <;> exact ⟨rfl, rfl, rfl⟩

/-- C6. For every default value `t₀` and each of the three constructors of
`TableAs` that take a default (name; name and comment; name, comment and
predicate), resolving the `TableAs` when the inner table is absent returns `t₀`,
both right after construction and after the inner table was resolved as absent. -/
theorem TableAs_absent_returns_default {T Config : Type} [Inhabited Config]
    (k : conversion T Config) (t₀ : T) (name comment : String) (maybeUse : Unit → Bool) :
    ((TableAs.ctor_name_t k name t₀).set_value none).call k = .ok t₀
    ∧ ((TableAs.ctor_name_comment_t k name comment t₀).set_value none).call k = .ok t₀
    ∧ ((TableAs.ctor_name_comment_maybeUse_t k name comment maybeUse t₀).set_value none).call k
        = .ok t₀
    ∧ (TableAs.ctor_name_t k name t₀).call k = .ok t₀
    ∧ (TableAs.ctor_name_comment_t k name comment t₀).call k = .ok t₀
    ∧ (TableAs.ctor_name_comment_maybeUse_t k name comment maybeUse t₀).call k = .ok t₀ :=
  ⟨rfl, rfl, rfl, rfl, rfl, rfl⟩

/-- C7. Resolving a `TableAs` throws the exception of `operator()` (category
`cant_find`, the spec's CannotResolve) if and only if the inner table is absent
and the constructor used took no default. -/
theorem TableAs_throws_iff_absent_and_no_default {T Config : Type} [Inhabited Config]
    (k : conversion T Config) (a : TableAs.args T) (v : Option Config) :
    ((TableAs.construct k a).set_value v).call k = .error .cant_find
      ↔ v = none ∧ a.t = none := by
  cases v with
  | some c => cases a <;> simp [TableAs.call, TableAs.set_value, OptionalTable.set_value,
      OptionalTable.call_into]
  | none => cases a <;> simp [TableAs.call, TableAs.set_value, OptionalTable.set_value,
      OptionalTable.call_into, TableAs.construct, TableAs.ctor_name, TableAs.ctor_name_t,
      TableAs.ctor_name_comment, TableAs.ctor_name_comment_maybeUse,
      TableAs.ctor_name_comment_t, TableAs.ctor_name_comment_maybeUse_t,
      OptionalTable.has_default, OptionalTable.set_par_style, OptionalTable.ctor,
      OptionalTable.ctor_maybeUse, TableAs.args.t]

/-- C8. Resolving an `OptionalTableAs` whose inner table is absent returns "no
value" (`std::nullopt`), whichever constructor built it; the obsolete
`operator()(T& result)` then returns `false` and leaves `result` as it was. -/
theorem OptionalTableAs_absent_no_value {T Config : Type} (k : conversion T Config)
    (a : OptionalTableAs.args) (result : T) :
    ((OptionalTableAs.construct k a).set_value none).call k = none
    ∧ ((OptionalTableAs.construct k a).set_value none).call_into k result = (false, result)
    ∧ (OptionalTableAs.construct k a).call k = none
    ∧ (OptionalTableAs.construct k a).call_into k result = (false, result) := by
  cases a <;> exact ⟨rfl, rfl, rfl, rfl⟩

/-- C9. When the inner table resolves to a sub-table `c`, both adapters return
`convert(c)`: `TableAs` returns `convert(c)` for each of its six constructors,
with or without a declared default, and `OptionalTableAs` returns a present value
holding `convert(c)` (the obsolete overload stores it in `result` and returns
`true`). -/
theorem adapters_present_return_convert {T Config : Type} [Inhabited Config]
    (k : conversion T Config) (a : TableAs.args T) (b : OptionalTableAs.args) (c : Config)
    (result : T) :
    ((TableAs.construct k a).set_value (some c)).call k = .ok (k.convert c)
    ∧ ((OptionalTableAs.construct k b).set_value (some c)).call k = some (k.convert c)
    ∧ ((OptionalTableAs.construct k b).set_value (some c)).call_into k result
        = (true, k.convert c) := by
  refine ⟨?_, ?_, ?_⟩
  · cases a <;> rfl
  · cases b <;> rfl
  · cases b <;> rfl

/-! ## Tuple: resolution -/

/-- What `fill_return_element<I>` leaves in `result`: the components from `I` on
hold the resolutions of the children at those positions, the components below `I`
are untouched. -/
theorem Tuple.fill_return_element_spec {N : Nat} {TYPES : Fin N → element}
    (self : Tuple TYPES) :
    ∀ (k I : Nat) (result r : Tuple.rtype TYPES), N - I = k →
      Tuple.fill_return_element self I result = .ok r →
      (∀ i : Fin N, I ≤ i.val → self.get i = .ok (r i))
      ∧ (∀ i : Fin N, i.val < I → r i = result i) := by
  intro k
  induction k with
  | zero =>
    intro I result r hk h
    rw [Tuple.fill_return_element] at h
    have hI : ¬ I < N := by omega
    simp only [hI, dite_false, Except.ok.injEq] at h
    subst h
    exact ⟨fun i hi => absurd i.isLt (by omega), fun _ _ => rfl⟩
  | succ k ih =>
    intro I result r hk h
    rw [Tuple.fill_return_element] at h
    have hI : I < N := by omega
    simp only [hI, dite_true] at h
    cases hv : self.value_ ⟨I, hI⟩ with
    | none => simp [hv] at h
    | some elem =>
      simp only [hv] at h
      cases hc : (TYPES ⟨I, hI⟩).call elem with
      | error e => simp [hc] at h
      | ok v =>
        simp only [hc] at h
        obtain ⟨h1, h2⟩ := ih (I + 1) _ r (by omega) h
        refine ⟨fun i hi => ?_, fun i hi => ?_⟩
        · rcases Nat.eq_or_lt_of_le hi with heq | hlt
          · have hi' : i = ⟨I, hI⟩ := Fin.ext heq.symm
            subst hi'
            have := h2 ⟨I, hI⟩ (Nat.lt_succ_self I)
            simp only [Function.update_same] at this
            simp [Tuple.get, hv, hc, this]
          · exact h1 i hlt
        · have hne : i ≠ ⟨I, hI⟩ := fun heq => by
            rw [heq] at hi
            exact Nat.lt_irrefl _ hi
          rw [h2 i (by omega), Function.update_noteq hne]

/-- When every child from position `I` on resolves, `fill_return_element<I>`
returns. -/
theorem Tuple.fill_return_element_ok {N : Nat} {TYPES : Fin N → element}
    (self : Tuple TYPES) (hall : ∀ i : Fin N, ∃ v, self.get i = .ok v) :
    ∀ (k I : Nat) (result : Tuple.rtype TYPES), N - I = k →
      ∃ r, Tuple.fill_return_element self I result = .ok r := by
  intro k
  induction k with
  | zero =>
    intro I result hk
    rw [Tuple.fill_return_element]
    have hI : ¬ I < N := by omega
    exact ⟨result, by simp [hI]⟩
  | succ k ih =>
    intro I result hk
    rw [Tuple.fill_return_element]
    have hI : I < N := by omega
    obtain ⟨v, hv⟩ := hall ⟨I, hI⟩
    simp only [Tuple.get] at hv
    cases hval : self.value_ ⟨I, hI⟩ with
    | none => simp [hval] at hv
    | some elem =>
      simp only [hval] at hv
      simp only [hI, dite_true, hval, hv]
      exact ih (I + 1) _ (by omega)

/-- C10. For every `Tuple` of arity `N`: when `operator()` returns, its result has
one component per position `0, ..., N-1`, and the component at position `i` is
the result of resolving the child descriptor at position `i`, which is also what
`get<i>()` returns; `operator()` does return whenever every child resolves; and
`get_size()` is `N`. -/
theorem Tuple_call_resolves_each_position {N : Nat} {TYPES : Fin N → element}
    (self : Tuple TYPES) :
    (∀ r, self.call = .ok r →
      ∀ i : Fin N, self.get i = .ok (r i)
        ∧ ∃ elem, self.value_ i = some elem ∧ (TYPES i).call elem = .ok (r i))
    ∧ ((∀ i : Fin N, ∃ v, self.get i = .ok v) → ∃ r, self.call = .ok r)
    ∧ self.get_size = N := by
  refine ⟨fun r h i => ?_, fun hall => ?_, rfl⟩
  · have hg := (Tuple.fill_return_element_spec self N 0 _ r (by omega) h).1 i (Nat.zero_le _)
    refine ⟨hg, ?_⟩
    simp only [Tuple.get] at hg
    cases hv : self.value_ i with
    | none => simp [hv] at hg
    | some elem => exact ⟨elem, rfl, by simpa [hv] using hg⟩
  · exact Tuple.fill_return_element_ok self hall N 0 _ (by omega)

/-- The example `Tuple<int, bool>` resolves to `(7, true)`. -/
theorem int_bool_tuple_call : int_bool_tuple.call = .ok int_bool_result := by
  unfold Tuple.call Tuple.assemble_rtype
  rw [Tuple.fill_return_element]
  simp only [show (0 : Nat) < 2 by decide, dite_true, int_bool_tuple, int_bool, int_element]
  rw [Tuple.fill_return_element]
  simp only [show (0 + 1 : Nat) < 2 by decide, dite_true, int_bool_tuple, int_bool, bool_element]
  rw [Tuple.fill_return_element]
  simp only [show ¬ (0 + 1 + 1 : Nat) < 2 by decide, dite_false]
  congr 1
  funext i
  fin_cases i <;> rfl

/-- C10, at the example `Tuple<int, bool>` whose children hold `7` and `true`:
`operator()` returns `(7, true)`, `get<0>()` returns `7`, `get<1>()` returns
`true`, and `get_size()` is `2`. -/
theorem Tuple_call_resolves_each_position_witness :
    int_bool_tuple.call = .ok int_bool_result
    ∧ int_bool_tuple.get 0 = .ok (int_bool_result 0)
    ∧ int_bool_tuple.get 1 = .ok (int_bool_result 1)
    ∧ int_bool_tuple.get_size = 2 :=
  have h := Tuple_call_resolves_each_position int_bool_tuple
  ⟨int_bool_tuple_call, (h.1 int_bool_result int_bool_tuple_call 0).1,
    (h.1 int_bool_result int_bool_tuple_call 1).1, h.2.2⟩

/-! ## Tuple: construction of the children -/

/-- The child constructions made by `finalize_tuple_elements(i, elem, others...)`
with `elem` at position `k`: they are made in the order of the positions `k`,
`k+1`, ..., the `j`-th of them with `Name::sequence_element(i + j)` and without a
default; when the function returns, every remaining position was constructed and
`value_` holds what the constructors returned. -/
theorem Tuple.finalize_tuple_elements_log {σ : Type} {N : Nat} {TYPES : Fin N → element}
    (C : (j : Fin N) → element_ctors σ (TYPES j)) :
    ∀ (m i k : Nat) (v : Tuple.ftype TYPES) (s : σ) (log : List (construction TYPES)),
      N - k = m →
      ∃ news : List (construction TYPES),
        (Tuple.finalize_tuple_elements (observed_ctors C) i k v (s, log)).2.2 = log ++ news
        ∧ news.length ≤ N - k
        ∧ (∀ j c, news[j]? = some c →
            c.position.val = k + j ∧ c.name = Name.sequence_element (i + j) ∧ c.dflt = none)
        ∧ (∀ v', (Tuple.finalize_tuple_elements (observed_ctors C) i k v (s, log)).1 = .ok v' →
            news.length = N - k
            ∧ (∀ c ∈ news, ∃ f, c.result = .ok f ∧ v' c.position = some f)
            ∧ (∀ p : Fin N, p.val < k → v' p = v p)) := by
  intro m
  induction m with
  | zero =>
    intro i k v s log hm
    have hk : ¬ k < N := by omega
    have hrun : Tuple.finalize_tuple_elements (observed_ctors C) i k v (s, log)
        = (.ok v, (s, log)) := by
      rw [Tuple.finalize_tuple_elements]
      simp only [hk, dite_false]
    rw [hrun]
    refine ⟨[], by simp, by simp, ?_, ?_⟩
    · intro j c hc
      simp at hc
    · intro v' hv'
      simp only [Except.ok.injEq] at hv'
      subst hv'
      exact ⟨by simp; omega, by simp, fun _ _ => rfl⟩
  | succ m ih =>
    intro i k v s log hm
    have hk : k < N := by omega
    rcases hr : (C ⟨k, hk⟩).ctor (Name.sequence_element i) s with ⟨r, s'⟩
    cases r with
    | error e =>
      have hrun : Tuple.finalize_tuple_elements (observed_ctors C) i k v (s, log)
          = (.error e, (s', log ++ [construction.mk ⟨k, hk⟩ (Name.sequence_element i) none
              (.error e)])) := by
        rw [Tuple.finalize_tuple_elements]
        simp [hk, observed_ctors, hr]
      rw [hrun]
      refine ⟨[construction.mk ⟨k, hk⟩ (Name.sequence_element i) none (.error e)], ?_, ?_, ?_, ?_⟩
      · rfl
      · simp; omega
      · intro j c hc
        cases j with
        | zero =>
          simp only [List.getElem?_cons_zero, Option.some.injEq] at hc
          subst hc
          exact ⟨rfl, rfl, rfl⟩
        | succ j => simp at hc
      · intro v' hv'
        simp at hv'
    | ok elem =>
      obtain ⟨news, h1, h2, h3, h4⟩ := ih (i + 1) (k + 1)
        (Function.update v ⟨k, hk⟩ (some elem)) s'
        (log ++ [construction.mk ⟨k, hk⟩ (Name.sequence_element i) none (.ok elem)]) (by omega)
      have hrun : Tuple.finalize_tuple_elements (observed_ctors C) i k v (s, log)
          = Tuple.finalize_tuple_elements (observed_ctors C) (i + 1) (k + 1)
              (Function.update v ⟨k, hk⟩ (some elem))
              (s', log ++ [construction.mk ⟨k, hk⟩ (Name.sequence_element i) none
                (.ok elem)]) := by
        conv_lhs => rw [Tuple.finalize_tuple_elements]
        simp [hk, observed_ctors, hr]
      rw [hrun]
      refine ⟨construction.mk ⟨k, hk⟩ (Name.sequence_element i) none (.ok elem) :: news, ?_, ?_, ?_, ?_⟩
      · rw [h1]
        simp
      · simp only [List.length_cons]
        omega
      · intro j c hc
        cases j with
        | zero =>
          simp only [List.getElem?_cons_zero, Option.some.injEq] at hc
          subst hc
          exact ⟨rfl, rfl, rfl⟩
        | succ j =>
          simp only [List.getElem?_cons_succ] at hc
          obtain ⟨hp, hn, hd⟩ := h3 j c hc
          refine ⟨by omega, ?_, hd⟩
          rw [hn]
          congr 1
          omega
      · intro v' hv'
        obtain ⟨hl, hres, hkeep⟩ := h4 v' hv'
        refine ⟨by simp only [List.length_cons]; omega, ?_, ?_⟩
        · intro c hc
          rcases List.mem_cons.mp hc with rfl | hc'
          · refine ⟨elem, rfl, ?_⟩
            have := hkeep ⟨k, hk⟩ (Nat.lt_succ_self k)
            simpa using this
          · exact hres c hc'
        · intro p hp
          have hne : p ≠ ⟨k, hk⟩ := fun heq => by
            rw [heq] at hp
            exact Nat.lt_irrefl _ hp
          rw [hkeep p (by omega), Function.update_noteq hne]

/-- The child constructions made by `fill_tuple_element<I>(defaults)`: they are
made in the order of the positions `I`, `I+1`, ..., the one at position `p` with
`Name::sequence_element(p)` and the default `defaults.get<p>()`; when the function
returns, every remaining position was constructed and `value_` holds what the
constructors returned. -/
theorem Tuple.fill_tuple_element_log {σ : Type} {N : Nat} {TYPES : Fin N → element}
    (C : (j : Fin N) → element_ctors σ (TYPES j)) (defaults : tuple_detail.ValueHolder TYPES) :
    ∀ (m k : Nat) (v : Tuple.ftype TYPES) (s : σ) (log : List (construction TYPES)),
      N - k = m →
      ∃ news : List (construction TYPES),
        (Tuple.fill_tuple_element (observed_ctors C) defaults k v (s, log)).2.2 = log ++ news
        ∧ news.length ≤ N - k
        ∧ (∀ j c, news[j]? = some c →
            c.position.val = k + j ∧ c.name = Name.sequence_element (k + j)
              ∧ c.dflt = some (defaults.get c.position))
        ∧ (∀ v', (Tuple.fill_tuple_element (observed_ctors C) defaults k v (s, log)).1 = .ok v' →
            news.length = N - k
            ∧ (∀ c ∈ news, ∃ f, c.result = .ok f ∧ v' c.position = some f)
            ∧ (∀ p : Fin N, p.val < k → v' p = v p)) := by
  intro m
  induction m with
  | zero =>
    intro k v s log hm
    have hk : ¬ k < N := by omega
    have hrun : Tuple.fill_tuple_element (observed_ctors C) defaults k v (s, log)
        = (.ok v, (s, log)) := by
      rw [Tuple.fill_tuple_element]
      simp only [hk, dite_false]
    rw [hrun]
    refine ⟨[], by simp, by simp, ?_, ?_⟩
    · intro j c hc
      simp at hc
    · intro v' hv'
      simp only [Except.ok.injEq] at hv'
      subst hv'
      exact ⟨by simp; omega, by simp, fun _ _ => rfl⟩
  | succ m ih =>
    intro k v s log hm
    have hk : k < N := by omega
    rcases hr : (C ⟨k, hk⟩).ctor_default (Name.sequence_element k) (defaults.get ⟨k, hk⟩) s with ⟨r, s'⟩
    cases r with
    | error e =>
      have hrun : Tuple.fill_tuple_element (observed_ctors C) defaults k v (s, log)
          = (.error e, (s', log ++ [construction.mk ⟨k, hk⟩ (Name.sequence_element k) (some (defaults.get ⟨k, hk⟩))
              (.error e)])) := by
        rw [Tuple.fill_tuple_element]
        simp [hk, observed_ctors, hr]
      rw [hrun]
      refine ⟨[construction.mk ⟨k, hk⟩ (Name.sequence_element k) (some (defaults.get ⟨k, hk⟩)) (.error e)], ?_, ?_, ?_, ?_⟩
      · rfl
      · simp; omega
      · intro j c hc
        cases j with
        | zero =>
          simp only [List.getElem?_cons_zero, Option.some.injEq] at hc
          subst hc
          exact ⟨rfl, rfl, rfl⟩
        | succ j => simp at hc
      · intro v' hv'
        simp at hv'
    | ok elem =>
      obtain ⟨news, h1, h2, h3, h4⟩ := ih (k + 1)
        (Function.update v ⟨k, hk⟩ (some elem)) s'
        (log ++ [construction.mk ⟨k, hk⟩ (Name.sequence_element k) (some (defaults.get ⟨k, hk⟩)) (.ok elem)]) (by omega)
      have hrun : Tuple.fill_tuple_element (observed_ctors C) defaults k v (s, log)
          = Tuple.fill_tuple_element (observed_ctors C) defaults (k + 1)
              (Function.update v ⟨k, hk⟩ (some elem))
              (s', log ++ [construction.mk ⟨k, hk⟩ (Name.sequence_element k) (some (defaults.get ⟨k, hk⟩))
                (.ok elem)]) := by
        conv_lhs => rw [Tuple.fill_tuple_element]
        simp [hk, observed_ctors, hr]
      rw [hrun]
      refine ⟨construction.mk ⟨k, hk⟩ (Name.sequence_element k) (some (defaults.get ⟨k, hk⟩)) (.ok elem) :: news, ?_, ?_, ?_, ?_⟩
      · rw [h1]
        simp
      · simp only [List.length_cons]
        omega
      · intro j c hc
        cases j with
        | zero =>
          simp only [List.getElem?_cons_zero, Option.some.injEq] at hc
          subst hc
          exact ⟨rfl, rfl, rfl⟩
        | succ j =>
          simp only [List.getElem?_cons_succ] at hc
          obtain ⟨hp, hn, hd⟩ := h3 j c hc
          refine ⟨by omega, ?_, hd⟩
          rw [hn]
          congr 1
          omega
      · intro v' hv'
        obtain ⟨hl, hres, hkeep⟩ := h4 v' hv'
        refine ⟨by simp only [List.length_cons]; omega, ?_, ?_⟩
        · intro c hc
          rcases List.mem_cons.mp hc with rfl | hc'
          · refine ⟨elem, rfl, ?_⟩
            have := hkeep ⟨k, hk⟩ (Nat.lt_succ_self k)
            simpa using this
          · exact hres c hc'
        · intro p hp
          have hne : p ≠ ⟨k, hk⟩ := fun heq => by
            rw [heq] at hp
            exact Nat.lt_irrefl _ hp
          rw [hkeep p (by omega), Function.update_noteq hne]

/-- The child constructions made by a constructor of `Tuple` without defaults. -/
theorem Tuple.ctor_finalize_log {σ : Type} {N : Nat} {TYPES : Fin N → element}
    (R : registry σ) (C : (j : Fin N) → element_ctors σ (TYPES j)) (name : Name)
    (comment : String) (vt : par_style) (maybeUse : Unit → Bool) (s : σ) :
    (Tuple.ctor_finalize (observed_registry TYPES R) (observed_ctors C) name comment vt
        maybeUse (s, [])).2.2.length ≤ N
    ∧ (∀ j c, (Tuple.ctor_finalize (observed_registry TYPES R) (observed_ctors C) name comment
          vt maybeUse (s, [])).2.2[j]? = some c →
        c.position.val = j ∧ c.name = Name.sequence_element j ∧ c.dflt = none)
    ∧ (∀ t, (Tuple.ctor_finalize (observed_registry TYPES R) (observed_ctors C) name comment
          vt maybeUse (s, [])).1 = .ok t →
        (Tuple.ctor_finalize (observed_registry TYPES R) (observed_ctors C) name comment vt
          maybeUse (s, [])).2.2.length = N
        ∧ ∀ c ∈ (Tuple.ctor_finalize (observed_registry TYPES R) (observed_ctors C) name
            comment vt maybeUse (s, [])).2.2,
          ∃ f, c.result = .ok f ∧ t.value_ c.position = some f) := by
  obtain ⟨news, h1, h2, h3, h4⟩ := Tuple.finalize_tuple_elements_log C N 0 0 (fun _ => none)
    (R.enter name s) [] (Nat.sub_zero N)
  simp only [List.nil_append, Nat.zero_add, Nat.sub_zero] at h1 h2 h3 h4
  rcases hrun : Tuple.finalize_tuple_elements (observed_ctors C) 0 0 (fun _ => none)
    (R.enter name s, []) with ⟨r, s'⟩
  rw [hrun] at h1 h4
  simp only at h1
  cases r with
  | error e =>
    have hc : Tuple.ctor_finalize (observed_registry TYPES R) (observed_ctors C) name comment vt
        maybeUse (s, []) = (.error e, s') := by
      simp [Tuple.ctor_finalize, Tuple.finalize_elements, SequenceBase.ctor, observed_registry,
        hrun]
    rw [hc]
    refine ⟨by rw [h1]; exact h2, fun j c hj => h3 j c (by rw [← h1]; exact hj), ?_⟩
    intro t ht
    simp at ht
  | ok v =>
    have hc : Tuple.ctor_finalize (observed_registry TYPES R) (observed_ctors C) name comment vt
        maybeUse (s, []) = (.ok (Tuple.mk (SequenceBase.mk name comment vt .TUPLE maybeUse) v), (R.end_of_ctor s'.1, s'.2)) := by
      simp [Tuple.ctor_finalize, Tuple.finalize_elements, SequenceBase.ctor, observed_registry,
        hrun]
    rw [hc]
    refine ⟨by simp only; rw [h1]; exact h2,
      fun j c hj => h3 j c (by rw [← h1]; exact hj), ?_⟩
    intro t ht
    simp only [Except.ok.injEq] at ht
    subst ht
    obtain ⟨hl, hres, _⟩ := h4 v rfl
    exact ⟨by simp only; rw [h1]; exact hl, fun c hc' => hres c (by rw [← h1]; exact hc')⟩

/-- The child constructions made by a constructor of `Tuple` with defaults. -/
theorem Tuple.ctor_fill_log {σ : Type} {N : Nat} {TYPES : Fin N → element}
    (R : registry σ) (C : (j : Fin N) → element_ctors σ (TYPES j)) (name : Name)
    (comment : String) (vt : par_style) (maybeUse : Unit → Bool)
    (defaults : tuple_detail.ValueHolder TYPES) (s : σ) :
    (Tuple.ctor_fill (observed_registry TYPES R) (observed_ctors C) name comment vt
        maybeUse defaults (s, [])).2.2.length ≤ N
    ∧ (∀ j c, (Tuple.ctor_fill (observed_registry TYPES R) (observed_ctors C) name comment
          vt maybeUse defaults (s, [])).2.2[j]? = some c →
        c.position.val = j ∧ c.name = Name.sequence_element j
          ∧ c.dflt = some (defaults.get c.position))
    ∧ (∀ t, (Tuple.ctor_fill (observed_registry TYPES R) (observed_ctors C) name comment
          vt maybeUse defaults (s, [])).1 = .ok t →
        (Tuple.ctor_fill (observed_registry TYPES R) (observed_ctors C) name comment vt
          maybeUse defaults (s, [])).2.2.length = N
        ∧ ∀ c ∈ (Tuple.ctor_fill (observed_registry TYPES R) (observed_ctors C) name
            comment vt maybeUse defaults (s, [])).2.2,
          ∃ f, c.result = .ok f ∧ t.value_ c.position = some f) := by
  obtain ⟨news, h1, h2, h3, h4⟩ := Tuple.fill_tuple_element_log C defaults N 0 (fun _ => none)
    (R.enter name s) [] (Nat.sub_zero N)
  simp only [List.nil_append, Nat.zero_add, Nat.sub_zero] at h1 h2 h3 h4
  rcases hrun : Tuple.fill_tuple_element (observed_ctors C) defaults 0 (fun _ => none)
    (R.enter name s, []) with ⟨r, s'⟩
  rw [hrun] at h1 h4
  simp only at h1
  cases r with
  | error e =>
    have hc : Tuple.ctor_fill (observed_registry TYPES R) (observed_ctors C) name comment vt
        maybeUse defaults (s, []) = (.error e, s') := by
      simp [Tuple.ctor_fill, Tuple.fill_tuple_elements, SequenceBase.ctor, observed_registry,
        hrun]
    rw [hc]
    refine ⟨by rw [h1]; exact h2, fun j c hj => h3 j c (by rw [← h1]; exact hj), ?_⟩
    intro t ht
    simp at ht
  | ok v =>
    have hc : Tuple.ctor_fill (observed_registry TYPES R) (observed_ctors C) name comment vt
        maybeUse defaults (s, []) = (.ok (Tuple.mk (SequenceBase.mk name comment vt .TUPLE maybeUse) v),
          (R.end_of_ctor s'.1, s'.2)) := by
      simp [Tuple.ctor_fill, Tuple.fill_tuple_elements, SequenceBase.ctor, observed_registry,
        hrun]
    rw [hc]
    refine ⟨by simp only; rw [h1]; exact h2,
      fun j c hj => h3 j c (by rw [← h1]; exact hj), ?_⟩
    intro t ht
    simp only [Except.ok.injEq] at ht
    subst ht
    obtain ⟨hl, hres, _⟩ := h4 v rfl
    exact ⟨by simp only; rw [h1]; exact hl, fun c hc' => hres c (by rw [← h1]; exact hc')⟩

/-- The child constructions made by any of the six constructors of `Tuple`: they
are made in the order of the positions, the one at position `j` with
`Name::sequence_element(j)` and with the default `defaults.get<j>()` when defaults
were supplied; when the constructor returns, every position was constructed and
`value_` holds what the child constructors returned. -/
theorem Tuple.construct_log {σ : Type} {N : Nat} {TYPES : Fin N → element}
    (R : registry σ) (C : (j : Fin N) → element_ctors σ (TYPES j)) (a : Tuple.args TYPES)
    (s : σ) :
    (Tuple.construct (observed_registry TYPES R) (observed_ctors C) a (s, [])).2.2.length ≤ N
    ∧ (∀ j c, (Tuple.construct (observed_registry TYPES R) (observed_ctors C) a
          (s, [])).2.2[j]? = some c →
        c.position.val = j ∧ c.name = Name.sequence_element j
          ∧ c.dflt = a.defaults.map (fun d => d.get c.position))
    ∧ (∀ t, (Tuple.construct (observed_registry TYPES R) (observed_ctors C) a (s, [])).1
          = .ok t →
        (Tuple.construct (observed_registry TYPES R) (observed_ctors C) a (s, [])).2.2.length
          = N
        ∧ ∀ c ∈ (Tuple.construct (observed_registry TYPES R) (observed_ctors C) a
            (s, [])).2.2,
          ∃ f, c.result = .ok f ∧ t.value_ c.position = some f) := by
  cases a with
  | name n => exact Tuple.ctor_finalize_log R C n "" .REQUIRED AlwaysUse s
  | name_comment n c => exact Tuple.ctor_finalize_log R C n c .REQUIRED AlwaysUse s
  | name_comment_maybeUse n c u =>
    exact Tuple.ctor_finalize_log R C n c .REQUIRED_CONDITIONAL u s
  | name_defaults n d => exact Tuple.ctor_fill_log R C n "" .REQUIRED AlwaysUse d s
  | name_comment_defaults n c d => exact Tuple.ctor_fill_log R C n c .REQUIRED AlwaysUse d s
  | name_comment_maybeUse_defaults n c u d =>
    exact Tuple.ctor_fill_log R C n c .REQUIRED_CONDITIONAL u d s

/-- The example `Tuple<int, bool>` constructed with the defaults `(7, true)`: the
constructor returns the tuple whose children hold `7` and `true`, leaves the name
stack empty, and has constructed position 0 with `[0]` and `7`, then position 1
with `[1]` and `true`. -/
theorem int_bool_construct_defaults :
    Tuple.construct (observed_registry int_bool NameStackRegistry) (observed_ctors int_bool_ctors)
      (.name_comment_defaults ⟨"t"⟩ "" (.of_defaults int_bool_values)) ([], [])
    = (.ok int_bool_tuple, ([],
        [construction.mk 0 (Name.sequence_element 0) (some (7 : Int)) (.ok (7 : Int)),
         construction.mk 1 (Name.sequence_element 1) (some true) (.ok true)])) := by
  simp only [Tuple.construct, Tuple.ctor_name_comment_defaults, Tuple.ctor_fill,
    Tuple.fill_tuple_elements, SequenceBase.ctor]
  rw [Tuple.fill_tuple_element]
  simp only [show (0 : Nat) < 2 by decide, dite_true, observed_ctors, int_bool_ctors]
  rw [Tuple.fill_tuple_element]
  simp only [show (0 + 1 : Nat) < 2 by decide, dite_true, observed_ctors, int_bool_ctors]
  rw [Tuple.fill_tuple_element]
  simp only [show ¬ (0 + 1 + 1 : Nat) < 2 by decide, dite_false]
  refine Prod.ext ?_ rfl
  simp only [Except.ok.injEq]
  unfold int_bool_tuple
  congr 1
  funext i
  fin_cases i <;> rfl

/-- C11. For every `Tuple` of arity `N`, whichever of the six constructors builds
it (without or with defaults): the children are constructed in the order of the
positions, and the constructor of the child at position `j` is called with
`Name::sequence_element(j)`, the name `[j]` of the zero-based sequence element
`j`; when the constructor returns the tuple `t`, every position `i < N` was
constructed so, and `t.value_` holds at `i` what that call returned. -/
theorem Tuple_children_named_sequence_element {σ : Type} {N : Nat} {TYPES : Fin N → element}
    (R : registry σ) (C : (j : Fin N) → element_ctors σ (TYPES j)) (a : Tuple.args TYPES)
    (s : σ) :
    (∀ (j : Nat) (c : construction TYPES),
        (Tuple.construct (observed_registry TYPES R) (observed_ctors C) a (s, [])).2.2[j]?
          = some c →
        c.position.val = j ∧ c.name = Name.sequence_element j)
    ∧ (∀ t, (Tuple.construct (observed_registry TYPES R) (observed_ctors C) a (s, [])).1
          = .ok t →
        ∀ i : Fin N, ∃ c, (Tuple.construct (observed_registry TYPES R) (observed_ctors C) a
            (s, [])).2.2[i.val]? = some c
          ∧ c.position = i ∧ c.name = Name.sequence_element i.val
          ∧ ∃ f, c.result = .ok f ∧ t.value_ c.position = some f)
    ∧ (∀ j, (Name.sequence_element j).value = "[" ++ toString j ++ "]") := by
  obtain ⟨_, h2, h3⟩ := Tuple.construct_log R C a s
  refine ⟨fun j c hc => ⟨(h2 j c hc).1, (h2 j c hc).2.1⟩, ?_, fun _ => rfl⟩
  intro t ht i
  obtain ⟨hl, hres⟩ := h3 t ht
  have hi : i.val < (Tuple.construct (observed_registry TYPES R) (observed_ctors C) a
      (s, [])).2.2.length := by
    rw [hl]
    exact i.isLt
  have hget := List.getElem?_eq_getElem hi
  obtain ⟨hp, hn, _⟩ := h2 i.val _ hget
  exact ⟨_, hget, Fin.ext hp, hn, hres _ (List.getElem_mem hi)⟩

/-- C11, at the example `Tuple<int, bool>` constructed with defaults: the second
child construction is that of position 1 and carries the name `[1]`. -/
theorem Tuple_children_named_sequence_element_witness :
    (Tuple.construct (observed_registry int_bool NameStackRegistry)
        (observed_ctors int_bool_ctors)
        (.name_comment_defaults ⟨"t"⟩ "" (.of_defaults int_bool_values)) ([], [])).2.2[1]?
      = some (construction.mk 1 (Name.sequence_element 1) (some true) (.ok true))
    ∧ (construction.mk (1 : Fin 2) (Name.sequence_element 1) (some true)
        (.ok true) : construction int_bool).position.val = 1
    ∧ (construction.mk (1 : Fin 2) (Name.sequence_element 1) (some true)
        (.ok true) : construction int_bool).name = ⟨"[1]"⟩ :=
  have hget : (Tuple.construct (observed_registry int_bool NameStackRegistry)
      (observed_ctors int_bool_ctors)
      (.name_comment_defaults ⟨"t"⟩ "" (.of_defaults int_bool_values)) ([], [])).2.2[1]?
      = some (construction.mk 1 (Name.sequence_element 1) (some true) (.ok true)) := by
    rw [int_bool_construct_defaults]
    rfl
  have h := (Tuple_children_named_sequence_element NameStackRegistry int_bool_ctors
    (.name_comment_defaults ⟨"t"⟩ "" (.of_defaults int_bool_values)) []).1 1
    (construction.mk 1 (Name.sequence_element 1) (some true) (.ok true)) hget
  ⟨hget, h.1, h.2.trans rfl⟩

/-- C12. For every `Tuple` constructed with defaults (by any of the three
constructors that take them): the constructor of the child at position `j` is
called with the default `defaults.get<j>()`, the `j`-th of the supplied defaults;
when the constructor returns, this holds of every position `i < N`.  The defaults
given as a positional list `d0, ..., dN-1` and as a pre-built tuple of the same
values make the same `ValueHolder`, whose `get<I>()` is `dI`. -/
theorem Tuple_children_get_their_defaults {σ : Type} {N : Nat} {TYPES : Fin N → element}
    (R : registry σ) (C : (j : Fin N) → element_ctors σ (TYPES j)) (a : Tuple.args TYPES)
    (d : tuple_detail.ValueHolder TYPES) (hd : a.defaults = some d) (s : σ) :
    (∀ (j : Nat) (c : construction TYPES),
        (Tuple.construct (observed_registry TYPES R) (observed_ctors C) a (s, [])).2.2[j]?
          = some c →
        c.position.val = j ∧ c.dflt = some (d.get c.position))
    ∧ (∀ t, (Tuple.construct (observed_registry TYPES R) (observed_ctors C) a (s, [])).1
          = .ok t →
        ∀ i : Fin N, ∃ c, (Tuple.construct (observed_registry TYPES R) (observed_ctors C) a
            (s, [])).2.2[i.val]? = some c
          ∧ c.position = i ∧ c.dflt = some (d.get c.position)
          ∧ ∃ f, c.result = .ok f ∧ t.value_ c.position = some f)
    ∧ (∀ ds : (i : Fin N) → (TYPES i).dtype,
        (tuple_detail.ValueHolder.of_defaults ds : tuple_detail.ValueHolder TYPES)
          = tuple_detail.ValueHolder.of_tuple ds
        ∧ ∀ I : Fin N, (tuple_detail.ValueHolder.of_defaults ds :
            tuple_detail.ValueHolder TYPES).get I = ds I) := by
  obtain ⟨_, h2, h3⟩ := Tuple.construct_log R C a s
  have hdf : ∀ (j : Nat) (c : construction TYPES),
      (Tuple.construct (observed_registry TYPES R) (observed_ctors C) a (s, [])).2.2[j]?
        = some c → c.dflt = some (d.get c.position) := by
    intro j c hc
    rw [(h2 j c hc).2.2, hd]
    rfl
  refine ⟨fun j c hc => ⟨(h2 j c hc).1, hdf j c hc⟩, ?_, fun ds => ⟨rfl, fun _ => rfl⟩⟩
  intro t ht i
  obtain ⟨hl, hres⟩ := h3 t ht
  have hi : i.val < (Tuple.construct (observed_registry TYPES R) (observed_ctors C) a
      (s, [])).2.2.length := by
    rw [hl]
    exact i.isLt
  have hget := List.getElem?_eq_getElem hi
  exact ⟨_, hget, Fin.ext (h2 i.val _ hget).1, hdf _ _ hget, hres _ (List.getElem_mem hi)⟩

/-- C12, at the example `Tuple<int, bool>` constructed with the defaults
`(7, true)`: the second child construction is that of position 1, made with the
default `true`. -/
theorem Tuple_children_get_their_defaults_witness :
    (Tuple.args.name_comment_defaults ⟨"t"⟩ ""
        (tuple_detail.ValueHolder.of_defaults int_bool_values) : Tuple.args int_bool).defaults
      = some (tuple_detail.ValueHolder.of_defaults int_bool_values)
    ∧ (Tuple.construct (observed_registry int_bool NameStackRegistry)
        (observed_ctors int_bool_ctors)
        (.name_comment_defaults ⟨"t"⟩ "" (.of_defaults int_bool_values)) ([], [])).2.2[1]?
      = some (construction.mk 1 (Name.sequence_element 1) (some true) (.ok true))
    ∧ (construction.mk (1 : Fin 2) (Name.sequence_element 1) (some true)
        (.ok true) : construction int_bool).dflt = some true :=
  have hget : (Tuple.construct (observed_registry int_bool NameStackRegistry)
      (observed_ctors int_bool_ctors)
      (.name_comment_defaults ⟨"t"⟩ "" (.of_defaults int_bool_values)) ([], [])).2.2[1]?
      = some (construction.mk 1 (Name.sequence_element 1) (some true) (.ok true)) := by
    rw [int_bool_construct_defaults]
    rfl
  have h := (Tuple_children_get_their_defaults NameStackRegistry int_bool_ctors
    (.name_comment_defaults ⟨"t"⟩ "" (.of_defaults int_bool_values))
    (.of_defaults int_bool_values) rfl []).1 1
    (construction.mk 1 (Name.sequence_element 1) (some true) (.ok true)) hget
  ⟨rfl, hget, h.2.trans rfl⟩

/-- Observing the child constructions does not change what
`finalize_tuple_elements` returns nor the state it leaves. -/
theorem Tuple.finalize_tuple_elements_observed {σ : Type} {N : Nat} {TYPES : Fin N → element}
    (C : (j : Fin N) → element_ctors σ (TYPES j)) :
    ∀ (m i k : Nat) (v : Tuple.ftype TYPES) (s : σ) (log : List (construction TYPES)),
      N - k = m →
      (Tuple.finalize_tuple_elements (observed_ctors C) i k v (s, log)).1
          = (Tuple.finalize_tuple_elements C i k v s).1
      ∧ (Tuple.finalize_tuple_elements (observed_ctors C) i k v (s, log)).2.1
          = (Tuple.finalize_tuple_elements C i k v s).2 := by
  intro m
  induction m with
  | zero =>
    intro i k v s log hm
    have hk : ¬ k < N := by omega
    rw [Tuple.finalize_tuple_elements, Tuple.finalize_tuple_elements]
    simp [hk]
  | succ m ih =>
    intro i k v s log hm
    have hk : k < N := by omega
    rcases hr : (C ⟨k, hk⟩).ctor (Name.sequence_element i) s with ⟨r, s'⟩
    rw [Tuple.finalize_tuple_elements, Tuple.finalize_tuple_elements]
    cases r with
    | error e => simp [hk, observed_ctors, hr]
    | ok elem =>
      simp only [hk, dite_true, observed_ctors, hr]
      exact ih (i + 1) (k + 1) _ s' _ (by omega)

/-- Observing the child constructions does not change what `fill_tuple_element`
returns nor the state it leaves. -/
theorem Tuple.fill_tuple_element_observed {σ : Type} {N : Nat} {TYPES : Fin N → element}
    (C : (j : Fin N) → element_ctors σ (TYPES j)) (defaults : tuple_detail.ValueHolder TYPES) :
    ∀ (m k : Nat) (v : Tuple.ftype TYPES) (s : σ) (log : List (construction TYPES)),
      N - k = m →
      (Tuple.fill_tuple_element (observed_ctors C) defaults k v (s, log)).1
          = (Tuple.fill_tuple_element C defaults k v s).1
      ∧ (Tuple.fill_tuple_element (observed_ctors C) defaults k v (s, log)).2.1
          = (Tuple.fill_tuple_element C defaults k v s).2 := by
  intro m
  induction m with
  | zero =>
    intro k v s log hm
    have hk : ¬ k < N := by omega
    rw [Tuple.fill_tuple_element, Tuple.fill_tuple_element]
    simp [hk]
  | succ m ih =>
    intro k v s log hm
    have hk : k < N := by omega
    rcases hr : (C ⟨k, hk⟩).ctor_default (Name.sequence_element k) (defaults.get ⟨k, hk⟩) s
      with ⟨r, s'⟩
    rw [Tuple.fill_tuple_element, Tuple.fill_tuple_element]
    cases r with
    | error e => simp [hk, observed_ctors, hr]
    | ok elem =>
      simp only [hk, dite_true, observed_ctors, hr]
      exact ih (k + 1) _ s' _ (by omega)

/-- Observing the child constructions does not change what a constructor of
`Tuple` returns nor the state of the Name Context it leaves. -/
theorem Tuple.construct_observed {σ : Type} {N : Nat} {TYPES : Fin N → element}
    (R : registry σ) (C : (j : Fin N) → element_ctors σ (TYPES j)) (a : Tuple.args TYPES)
    (s : σ) (log : List (construction TYPES)) :
    (Tuple.construct (observed_registry TYPES R) (observed_ctors C) a (s, log)).1
        = (Tuple.construct R C a s).1
    ∧ (Tuple.construct (observed_registry TYPES R) (observed_ctors C) a (s, log)).2.1
        = (Tuple.construct R C a s).2 := by
  have hfin : ∀ (name : Name) (comment : String) (vt : par_style) (maybeUse : Unit → Bool),
      (Tuple.ctor_finalize (observed_registry TYPES R) (observed_ctors C) name comment vt
          maybeUse (s, log)).1 = (Tuple.ctor_finalize R C name comment vt maybeUse s).1
      ∧ (Tuple.ctor_finalize (observed_registry TYPES R) (observed_ctors C) name comment vt
          maybeUse (s, log)).2.1 = (Tuple.ctor_finalize R C name comment vt maybeUse s).2 := by
    intro name comment vt maybeUse
    obtain ⟨h1, h2⟩ := Tuple.finalize_tuple_elements_observed C N 0 0 (fun _ => none)
      (R.enter name s) log (Nat.sub_zero N)
    rcases ho : Tuple.finalize_tuple_elements (observed_ctors C) 0 0 (fun _ => none)
      (R.enter name s, log) with ⟨ro, so⟩
    rcases hp : Tuple.finalize_tuple_elements C 0 0 (fun _ => none) (R.enter name s)
      with ⟨rp, sp⟩
    rw [ho, hp] at h1 h2
    simp only at h1 h2
    subst h1
    subst h2
    cases ro <;>
      simp [Tuple.ctor_finalize, Tuple.finalize_elements, SequenceBase.ctor, observed_registry,
        ho, hp]
  have hfill : ∀ (name : Name) (comment : String) (vt : par_style) (maybeUse : Unit → Bool)
      (d : tuple_detail.ValueHolder TYPES),
      (Tuple.ctor_fill (observed_registry TYPES R) (observed_ctors C) name comment vt
          maybeUse d (s, log)).1 = (Tuple.ctor_fill R C name comment vt maybeUse d s).1
      ∧ (Tuple.ctor_fill (observed_registry TYPES R) (observed_ctors C) name comment vt
          maybeUse d (s, log)).2.1 = (Tuple.ctor_fill R C name comment vt maybeUse d s).2 := by
    intro name comment vt maybeUse d
    obtain ⟨h1, h2⟩ := Tuple.fill_tuple_element_observed C d N 0 (fun _ => none)
      (R.enter name s) log (Nat.sub_zero N)
    rcases ho : Tuple.fill_tuple_element (observed_ctors C) d 0 (fun _ => none)
      (R.enter name s, log) with ⟨ro, so⟩
    rcases hp : Tuple.fill_tuple_element C d 0 (fun _ => none) (R.enter name s)
      with ⟨rp, sp⟩
    rw [ho, hp] at h1 h2
    simp only at h1 h2
    subst h1
    subst h2
    cases ro <;>
      simp [Tuple.ctor_fill, Tuple.fill_tuple_elements, SequenceBase.ctor, observed_registry,
        ho, hp]
  cases a with
  | name n => exact hfin n "" .REQUIRED AlwaysUse
  | name_comment n c => exact hfin n c .REQUIRED AlwaysUse
  | name_comment_maybeUse n c u => exact hfin n c .REQUIRED_CONDITIONAL u
  | name_defaults n d => exact hfill n "" .REQUIRED AlwaysUse d
  | name_comment_defaults n c d => exact hfill n c .REQUIRED AlwaysUse d
  | name_comment_maybeUse_defaults n c u d => exact hfill n c .REQUIRED_CONDITIONAL u d

/-! ## Tuple: the Name Context -/

/-- The base that a constructor of `Tuple` builds: the presence kind is `REQUIRED`
when no predicate is supplied and `REQUIRED_CONDITIONAL` when one is, whether or
not defaults are supplied. -/
theorem Tuple.construct_base {σ : Type} {N : Nat} {TYPES : Fin N → element}
    (R : registry σ) (C : (j : Fin N) → element_ctors σ (TYPES j)) (a : Tuple.args TYPES)
    (s : σ) (t : Tuple TYPES) (s' : σ) (h : Tuple.construct R C a s = (.ok t, s')) :
    t.base.vt = (match a.maybeUse with
      | none => par_style.REQUIRED
      | some _ => par_style.REQUIRED_CONDITIONAL)
    ∧ t.base.pt = .TUPLE ∧ t.base.name = a.name_ := by
  have hfin : ∀ (name : Name) (comment : String) (vt : par_style) (maybeUse : Unit → Bool),
      Tuple.ctor_finalize R C name comment vt maybeUse s = (.ok t, s') →
      t.base.vt = vt ∧ t.base.pt = .TUPLE ∧ t.base.name = name := by
    intro name comment vt maybeUse h
    simp only [Tuple.ctor_finalize, SequenceBase.ctor] at h
    split at h
    · simp only [Prod.mk.injEq, Except.ok.injEq] at h
      rw [← h.1]
      exact ⟨rfl, rfl, rfl⟩
    · simp at h
  have hfill : ∀ (name : Name) (comment : String) (vt : par_style) (maybeUse : Unit → Bool)
      (d : tuple_detail.ValueHolder TYPES),
      Tuple.ctor_fill R C name comment vt maybeUse d s = (.ok t, s') →
      t.base.vt = vt ∧ t.base.pt = .TUPLE ∧ t.base.name = name := by
    intro name comment vt maybeUse d h
    simp only [Tuple.ctor_fill, SequenceBase.ctor] at h
    split at h
    · simp only [Prod.mk.injEq, Except.ok.injEq] at h
      rw [← h.1]
      exact ⟨rfl, rfl, rfl⟩
    · simp at h
  cases a with
  | name n => exact hfin n "" .REQUIRED AlwaysUse h
  | name_comment n c => exact hfin n c .REQUIRED AlwaysUse h
  | name_comment_maybeUse n c u => exact hfin n c .REQUIRED_CONDITIONAL u h
  | name_defaults n d => exact hfill n "" .REQUIRED AlwaysUse d h
  | name_comment_defaults n c d => exact hfill n c .REQUIRED AlwaysUse d h
  | name_comment_maybeUse_defaults n c u d => exact hfill n c .REQUIRED_CONDITIONAL u d h

/-- The example `Tuple<int, bool>` built with the defaults `(7, true)` by the body
shared by the constructors with defaults: it returns, with the given presence
kind in its base, and leaves the name stack as it was. -/
theorem int_bool_ctor_fill (name : Name) (comment : String) (vt : par_style)
    (maybeUse : Unit → Bool) (names_ : List String) :
    Tuple.ctor_fill NameStackRegistry int_bool_ctors name comment vt maybeUse
      (.of_defaults int_bool_values) names_
    = (.ok (Tuple.mk (SequenceBase.mk name comment vt .TUPLE maybeUse) int_bool_tuple.value_),
        names_) := by
  simp only [Tuple.ctor_fill, Tuple.fill_tuple_elements, SequenceBase.ctor]
  rw [Tuple.fill_tuple_element]
  simp only [show (0 : Nat) < 2 by decide, dite_true, int_bool_ctors]
  rw [Tuple.fill_tuple_element]
  simp only [show (0 + 1 : Nat) < 2 by decide, dite_true, int_bool_ctors]
  rw [Tuple.fill_tuple_element]
  simp only [show ¬ (0 + 1 + 1 : Nat) < 2 by decide, dite_false]
  refine Prod.ext ?_ rfl
  simp only [Except.ok.injEq]
  unfold int_bool_tuple
  congr 1
  funext i
  fin_cases i <;> rfl

/-- C15, the code at the failing input.  `Tuple<int, bool>` constructed with the
defaults `(7, true)` and no predicate registers `REQUIRED`, and with a predicate
`REQUIRED_CONDITIONAL`, where `TableAs` constructed with a default registers
`DEFAULT` and `DEFAULT_CONDITIONAL`; without a default both register `REQUIRED`
and `REQUIRED_CONDITIONAL`. -/
theorem Tuple_with_defaults_registers_REQUIRED :
    ((Tuple.construct NameStackRegistry int_bool_ctors
        (.name_comment_defaults ⟨"t"⟩ "" (.of_defaults int_bool_values)) []).1.toOption.map
          (fun t => t.base.vt)) = some .REQUIRED
    ∧ ((Tuple.construct NameStackRegistry int_bool_ctors
        (.name_defaults ⟨"t"⟩ (.of_defaults int_bool_values)) []).1.toOption.map
          (fun t => t.base.vt)) = some .REQUIRED
    ∧ ((Tuple.construct NameStackRegistry int_bool_ctors
        (.name_comment_maybeUse_defaults ⟨"t"⟩ "" AlwaysUse (.of_defaults int_bool_values))
          []).1.toOption.map (fun t => t.base.vt)) = some .REQUIRED_CONDITIONAL
    ∧ (TableAs.construct MyType_conversion (.name_comment_t "t" "" 5)).tableObj_.parStyle_
        = .DEFAULT
    ∧ (TableAs.construct MyType_conversion (.name_t "t" 5)).tableObj_.parStyle_ = .DEFAULT
    ∧ (TableAs.construct MyType_conversion
        (.name_comment_maybeUse_t "t" "" AlwaysUse 5)).tableObj_.parStyle_
        = .DEFAULT_CONDITIONAL
    ∧ (TableAs.construct MyType_conversion (.name_comment "t" "")).tableObj_.parStyle_
        = .REQUIRED
    ∧ (TableAs.construct MyType_conversion
        (.name_comment_maybeUse "t" "" AlwaysUse)).tableObj_.parStyle_
        = .REQUIRED_CONDITIONAL := by
  refine ⟨?_, ?_, ?_, rfl, rfl, rfl, rfl, rfl⟩
  · simp only [Tuple.construct, Tuple.ctor_name_comment_defaults, int_bool_ctor_fill]
    rfl
  · simp only [Tuple.construct, Tuple.ctor_name_defaults, Tuple.ctor_name_comment_defaults,
      int_bool_ctor_fill]
    rfl
  · simp only [Tuple.construct, Tuple.ctor_name_comment_maybeUse_defaults, int_bool_ctor_fill]
    rfl

/-! ## put of a vector: fail-fast -/

/-- The loop of `put` for a vector, started with `result` true, returns `true`
exactly when every element was put and every element `put` returned `true`. -/
theorem put_vector_loop_true_iff {σ T : Type}
    (put_item : String → T → Bool → σ → outcome σ Bool) (key : String) (in_prolog : Bool)
    (rest : List T) :
    ∀ (count : Nat) (s : σ) (log elems : List (call T)),
      (put_vector_loop (observed_put put_item) key in_prolog rest count true (s, log)).2.2
          = log ++ elems →
      ((put_vector_loop (observed_put put_item) key in_prolog rest count true (s, log)).1
          = .ok true
        ↔ elems.length = rest.length ∧ ∀ c ∈ elems, c.result = .ok true) := by
  induction rest with
  | nil =>
    intro count s log elems h
    simp only [put_vector_loop] at h ⊢
    have he : elems = [] := by simpa using h
    subst he
    simp
  | cons x rest ih =>
    intro count s log elems h
    rcases hr : put_item (element_key key count) x in_prolog s with ⟨r, s'⟩
    have hstop : ∀ r', r' ≠ Except.ok true →
        put_vector_loop (observed_put put_item) key in_prolog (x :: rest) count true (s, log)
          = (r', (s', log ++ [call.put (element_key key count) x in_prolog r'])) →
        ((put_vector_loop (observed_put put_item) key in_prolog (x :: rest) count true
            (s, log)).1 = .ok true
          ↔ elems.length = (x :: rest).length ∧ ∀ c ∈ elems, c.result = .ok true) := by
      intro r' hr' hrun
      rw [hrun] at h ⊢
      have he : elems = [call.put (element_key key count) x in_prolog r'] :=
        (List.append_cancel_left h).symm
      subst he
      constructor
      · intro hres
        exact absurd hres hr'
      · intro hall
        exact absurd (hall.2 _ (List.mem_singleton.mpr rfl)) hr'
    cases r with
    | error e =>
      refine hstop (.error e) (by simp) ?_
      simp [put_vector_loop, observed_put, hr]
    | ok b =>
      cases b with
      | false =>
        refine hstop (.ok false) (by simp) ?_
        simp [put_vector_loop, observed_put, hr, put_vector_loop_false]
      | true =>
        have hrun : put_vector_loop (observed_put put_item) key in_prolog (x :: rest) count true
            (s, log) = put_vector_loop (observed_put put_item) key in_prolog rest (count + 1)
              true (s', log ++ [call.put (element_key key count) x in_prolog (.ok true)]) := by
          simp [put_vector_loop, observed_put, hr]
        obtain ⟨news, hn, _⟩ := put_vector_loop_log put_item key in_prolog rest (count + 1) s'
          (log ++ [call.put (element_key key count) x in_prolog (.ok true)])
        rw [hrun] at h ⊢
        have he : elems = call.put (element_key key count) x in_prolog (.ok true) :: news := by
          rw [hn, List.append_assoc] at h
          exact (List.append_cancel_left h).symm
        subst he
        rw [ih (count + 1) s' _ news hn]
        simp [call.result]

/-- C16. `put` of a vector is fail-fast.  If `putEmptySequence(key, in_prolog)`
returns `false`, `put` returns `false` and the call of `insert` for the empty
sequence is the only call made.  If it returns `true`, the elements are put in
increasing order, every call before the last one made returned `true`, and the
calls stop short of the last element only after a call that did not return
`true`, so no element after the first failing one is put.  `put` returns `true`
exactly when `putEmptySequence` returned `true`, every element was put and every
element `put` returned `true`.  `put(key, {}, in_prolog)` is
`putEmptySequence(key, in_prolog)`. -/
theorem put_vector_fail_fast {σ ν T : Type} (M : members σ ν)
    (put_item : String → T → Bool → σ → outcome σ Bool) (key : String) (value : List T)
    (in_prolog : Bool) (s : σ) :
    ((putEmptySequence M key in_prolog s).1 = .ok false →
        put_vector M put_item key value in_prolog s
          = (.ok false, (putEmptySequence M key in_prolog s).2)
        ∧ (put_vector (observed T M) (observed_put put_item) key value in_prolog (s, [])).2.2
          = [call.insert key in_prolog .SEQUENCE (.sequence []) (.ok false)])
    ∧ ((putEmptySequence M key in_prolog s).1 = .ok true →
        ∃ elems : List (call T),
          (put_vector (observed T M) (observed_put put_item) key value in_prolog (s, [])).2.2
            = call.insert key in_prolog .SEQUENCE (.sequence []) (.ok true) :: elems
          ∧ elems.length ≤ value.length
          ∧ (∀ i x, i < elems.length → value[i]? = some x →
              ∃ r, elems[i]? = some (call.put (element_key key i) x in_prolog r))
          ∧ (∀ j c, j + 1 < elems.length → elems[j]? = some c → c.result = .ok true)
          ∧ (elems.length < value.length →
              ∃ c, elems.getLast? = some c ∧ c.result ≠ .ok true)
          ∧ ((put_vector M put_item key value in_prolog s).1 = .ok true
              ↔ elems.length = value.length ∧ ∀ c ∈ elems, c.result = .ok true))
    ∧ ((put_vector M put_item key value in_prolog s).1 = .ok true →
        (putEmptySequence M key in_prolog s).1 = .ok true)
    ∧ put_vector M put_item key [] in_prolog s = putEmptySequence M key in_prolog s := by
  rcases hr : M.insert key in_prolog .SEQUENCE (.sequence []) s with ⟨r, s'⟩
  refine ⟨?_, ?_, ?_, ?_⟩
  · intro h0
    simp only [putEmptySequence, hr] at h0
    subst h0
    simp [put_vector, putEmptySequence, observed, hr]
  · intro h0
    simp only [putEmptySequence, hr] at h0
    subst h0
    obtain ⟨elems, h1, h2, h3, h4, h5, _⟩ := put_vector_loop_log put_item key in_prolog value 0
      s' [call.insert key in_prolog .SEQUENCE (.sequence []) (.ok true)]
    have hrun : put_vector (observed T M) (observed_put put_item) key value in_prolog (s, [])
        = put_vector_loop (observed_put put_item) key in_prolog value 0 true
            (s', [call.insert key in_prolog .SEQUENCE (.sequence []) (.ok true)]) := by
      simp [put_vector, putEmptySequence, observed, hr]
    refine ⟨elems, ?_, h2, ?_, h4, h5, ?_⟩
    · rw [hrun, h1]
      rfl
    · intro i x hi hx
      simpa using h3 i x hi hx
    · rw [← (put_vector_observed M put_item key value in_prolog s []).1, hrun]
      exact put_vector_loop_true_iff put_item key in_prolog value 0 s' _ elems h1
  · intro hres
    simp only [putEmptySequence, hr]
    cases r with
    | error e => simp [put_vector, putEmptySequence, hr] at hres
    | ok b =>
      cases b with
      | false => simp [put_vector, putEmptySequence, hr] at hres
      | true => rfl
  · cases r with
    | error e => simp [put_vector, putEmptySequence, hr]
    | ok b => cases b <;> simp [put_vector, putEmptySequence, hr, put_vector_loop]

/-- C16, on the tree `{ k : "v1" }` with `k` protected: `putEmptySequence("k")`
returns `false`, so `put("k", {"a", "b"})` returns `false` and leaves the tree as
it was; and `put("s", {})` is `putEmptySequence("s")`. -/
theorem put_vector_fail_fast_witness :
    (putEmptySequence tree.impl "k" false tree.locked).1 = .ok false
    ∧ put_vector tree.impl (put_string tree.impl plain) "k" ["a", "b"] false tree.locked
      = (.ok false, (putEmptySequence tree.impl "k" false tree.locked).2)
    ∧ put_vector tree.impl (put_string tree.impl plain) "s" [] false tree.locked
      = putEmptySequence tree.impl "s" false tree.locked :=
  have h := put_vector_fail_fast tree.impl (put_string tree.impl plain) "k" ["a", "b"] false
    tree.locked
  have h' := put_vector_fail_fast tree.impl (put_string tree.impl plain) "s" ["a", "b"] false
    tree.locked
  ⟨rfl, (h.1 rfl).1, h'.2.2.2⟩

end fhicl
